import Mathlib

/-!
Verification development for an AES implementation (ECB/CBC/CTR) augmented
with a Hamming-code fault-detection overlay (`aes.c`).

Bytes are modelled as `Nat` with explicit `% 256` wherever the C code's
`uint8_t` truncation matters.  The 4×4 state matrix `state_t` (and the
Hamming matrices `hamstate_t`) are modelled as a 16-field structure `St`,
field `sCR` holding the C array cell `[C][R]` (memory offset `4*C + R`).
The C functions mutate state through pointers; here each transform returns
the updated values.  `exit(2)` on an uncorrectable fault is modelled as
`Except.error 2`; `printf` logging has no semantic content and is dropped.

AES-128 build configuration (the source default): `Nb = 4`, `Nk = 4`,
`Nr = 10`.
-/

namespace AESSEU

/-- Forward S-box table (`sbox` in `aes.c`). -/
def sbox : List Nat := [
  0x63, 0x7c, 0x77, 0x7b, 0xf2, 0x6b, 0x6f, 0xc5, 0x30, 0x01, 0x67, 0x2b, 0xfe, 0xd7, 0xab, 0x76,
  0xca, 0x82, 0xc9, 0x7d, 0xfa, 0x59, 0x47, 0xf0, 0xad, 0xd4, 0xa2, 0xaf, 0x9c, 0xa4, 0x72, 0xc0,
  0xb7, 0xfd, 0x93, 0x26, 0x36, 0x3f, 0xf7, 0xcc, 0x34, 0xa5, 0xe5, 0xf1, 0x71, 0xd8, 0x31, 0x15,
  0x04, 0xc7, 0x23, 0xc3, 0x18, 0x96, 0x05, 0x9a, 0x07, 0x12, 0x80, 0xe2, 0xeb, 0x27, 0xb2, 0x75,
  0x09, 0x83, 0x2c, 0x1a, 0x1b, 0x6e, 0x5a, 0xa0, 0x52, 0x3b, 0xd6, 0xb3, 0x29, 0xe3, 0x2f, 0x84,
  0x53, 0xd1, 0x00, 0xed, 0x20, 0xfc, 0xb1, 0x5b, 0x6a, 0xcb, 0xbe, 0x39, 0x4a, 0x4c, 0x58, 0xcf,
  0xd0, 0xef, 0xaa, 0xfb, 0x43, 0x4d, 0x33, 0x85, 0x45, 0xf9, 0x02, 0x7f, 0x50, 0x3c, 0x9f, 0xa8,
  0x51, 0xa3, 0x40, 0x8f, 0x92, 0x9d, 0x38, 0xf5, 0xbc, 0xb6, 0xda, 0x21, 0x10, 0xff, 0xf3, 0xd2,
  0xcd, 0x0c, 0x13, 0xec, 0x5f, 0x97, 0x44, 0x17, 0xc4, 0xa7, 0x7e, 0x3d, 0x64, 0x5d, 0x19, 0x73,
  0x60, 0x81, 0x4f, 0xdc, 0x22, 0x2a, 0x90, 0x88, 0x46, 0xee, 0xb8, 0x14, 0xde, 0x5e, 0x0b, 0xdb,
  0xe0, 0x32, 0x3a, 0x0a, 0x49, 0x06, 0x24, 0x5c, 0xc2, 0xd3, 0xac, 0x62, 0x91, 0x95, 0xe4, 0x79,
  0xe7, 0xc8, 0x37, 0x6d, 0x8d, 0xd5, 0x4e, 0xa9, 0x6c, 0x56, 0xf4, 0xea, 0x65, 0x7a, 0xae, 0x08,
  0xba, 0x78, 0x25, 0x2e, 0x1c, 0xa6, 0xb4, 0xc6, 0xe8, 0xdd, 0x74, 0x1f, 0x4b, 0xbd, 0x8b, 0x8a,
  0x70, 0x3e, 0xb5, 0x66, 0x48, 0x03, 0xf6, 0x0e, 0x61, 0x35, 0x57, 0xb9, 0x86, 0xc1, 0x1d, 0x9e,
  0xe1, 0xf8, 0x98, 0x11, 0x69, 0xd9, 0x8e, 0x94, 0x9b, 0x1e, 0x87, 0xe9, 0xce, 0x55, 0x28, 0xdf,
  0x8c, 0xa1, 0x89, 0x0d, 0xbf, 0xe6, 0x42, 0x68, 0x41, 0x99, 0x2d, 0x0f, 0xb0, 0x54, 0xbb, 0x16]

/-- Inverse S-box table (`rsbox` in `aes.c`). -/
def rsbox : List Nat := [
  0x52, 0x09, 0x6a, 0xd5, 0x30, 0x36, 0xa5, 0x38, 0xbf, 0x40, 0xa3, 0x9e, 0x81, 0xf3, 0xd7, 0xfb,
  0x7c, 0xe3, 0x39, 0x82, 0x9b, 0x2f, 0xff, 0x87, 0x34, 0x8e, 0x43, 0x44, 0xc4, 0xde, 0xe9, 0xcb,
  0x54, 0x7b, 0x94, 0x32, 0xa6, 0xc2, 0x23, 0x3d, 0xee, 0x4c, 0x95, 0x0b, 0x42, 0xfa, 0xc3, 0x4e,
  0x08, 0x2e, 0xa1, 0x66, 0x28, 0xd9, 0x24, 0xb2, 0x76, 0x5b, 0xa2, 0x49, 0x6d, 0x8b, 0xd1, 0x25,
  0x72, 0xf8, 0xf6, 0x64, 0x86, 0x68, 0x98, 0x16, 0xd4, 0xa4, 0x5c, 0xcc, 0x5d, 0x65, 0xb6, 0x92,
  0x6c, 0x70, 0x48, 0x50, 0xfd, 0xed, 0xb9, 0xda, 0x5e, 0x15, 0x46, 0x57, 0xa7, 0x8d, 0x9d, 0x84,
  0x90, 0xd8, 0xab, 0x00, 0x8c, 0xbc, 0xd3, 0x0a, 0xf7, 0xe4, 0x58, 0x05, 0xb8, 0xb3, 0x45, 0x06,
  0xd0, 0x2c, 0x1e, 0x8f, 0xca, 0x3f, 0x0f, 0x02, 0xc1, 0xaf, 0xbd, 0x03, 0x01, 0x13, 0x8a, 0x6b,
  0x3a, 0x91, 0x11, 0x41, 0x4f, 0x67, 0xdc, 0xea, 0x97, 0xf2, 0xcf, 0xce, 0xf0, 0xb4, 0xe6, 0x73,
  0x96, 0xac, 0x74, 0x22, 0xe7, 0xad, 0x35, 0x85, 0xe2, 0xf9, 0x37, 0xe8, 0x1c, 0x75, 0xdf, 0x6e,
  0x47, 0xf1, 0x1a, 0x71, 0x1d, 0x29, 0xc5, 0x89, 0x6f, 0xb7, 0x62, 0x0e, 0xaa, 0x18, 0xbe, 0x1b,
  0xfc, 0x56, 0x3e, 0x4b, 0xc6, 0xd2, 0x79, 0x20, 0x9a, 0xdb, 0xc0, 0xfe, 0x78, 0xcd, 0x5a, 0xf4,
  0x1f, 0xdd, 0xa8, 0x33, 0x88, 0x07, 0xc7, 0x31, 0xb1, 0x12, 0x10, 0x59, 0x27, 0x80, 0xec, 0x5f,
  0x60, 0x51, 0x7f, 0xa9, 0x19, 0xb5, 0x4a, 0x0d, 0x2d, 0xe5, 0x7a, 0x9f, 0x93, 0xc9, 0x9c, 0xef,
  0xa0, 0xe0, 0x3b, 0x4d, 0xae, 0x2a, 0xf5, 0xb0, 0xc8, 0xeb, 0xbb, 0x3c, 0x83, 0x53, 0x99, 0x61,
  0x17, 0x2b, 0x04, 0x7e, 0xba, 0x77, 0xd6, 0x26, 0xe1, 0x69, 0x14, 0x63, 0x55, 0x21, 0x0c, 0x7d]

/-- Round-constant array (`Rcon` in `aes.c`). -/
def Rcon : List Nat :=
  [0x8d, 0x01, 0x02, 0x04, 0x08, 0x10, 0x20, 0x40, 0x80, 0x1b, 0x36]

/-- Hamming-code lookup table for the SubBytes predictor (`h_rd` in `aes.c`):
entry `b` is intended to be the Hamming code of `sbox[b]`. -/
def h_rd : List Nat := [
  0x02, 0x0e, 0x09, 0x05, 0x03, 0x0b, 0x0e, 0x00, 0x08, 0x03, 0x07, 0x01, 0x0f, 0x03, 0x0d, 0x0a,
  0x02, 0x01, 0x0c, 0x0d, 0x0a, 0x0e, 0x01, 0x0e, 0x05, 0x0d, 0x07, 0x08, 0x0e, 0x0f, 0x0f, 0x06,
  0x0f, 0x01, 0x0c, 0x0e, 0x00, 0x0a, 0x05, 0x0a, 0x0d, 0x0c, 0x06, 0x0d, 0x01, 0x01, 0x0b, 0x08,
  0x05, 0x0d, 0x08, 0x08, 0x07, 0x0a, 0x06, 0x06, 0x0b, 0x03, 0x0c, 0x0d, 0x07, 0x0d, 0x09, 0x04,
  0x0a, 0x02, 0x0a, 0x0a, 0x09, 0x0d, 0x00, 0x0a, 0x09, 0x0f, 0x00, 0x0a, 0x0c, 0x0e, 0x04, 0x09,
  0x0a, 0x0b, 0x00, 0x0f, 0x06, 0x02, 0x07, 0x03, 0x08, 0x01, 0x05, 0x02, 0x0e, 0x06, 0x0d, 0x04,
  0x08, 0x02, 0x0e, 0x09, 0x04, 0x05, 0x06, 0x0a, 0x0c, 0x04, 0x0d, 0x00, 0x04, 0x04, 0x00, 0x03,
  0x07, 0x04, 0x0a, 0x0e, 0x0f, 0x0d, 0x01, 0x08, 0x08, 0x0c, 0x0c, 0x05, 0x0e, 0x0c, 0x00, 0x05,
  0x09, 0x0c, 0x00, 0x0c, 0x06, 0x09, 0x0f, 0x05, 0x03, 0x01, 0x03, 0x07, 0x09, 0x0b, 0x04, 0x0c,
  0x0c, 0x0f, 0x08, 0x04, 0x0b, 0x02, 0x02, 0x05, 0x02, 0x01, 0x0d, 0x0b, 0x09, 0x05, 0x07, 0x0f,
  0x00, 0x05, 0x0c, 0x04, 0x00, 0x08, 0x03, 0x08, 0x0b, 0x06, 0x06, 0x01, 0x01, 0x04, 0x05, 0x08,
  0x0b, 0x0f, 0x03, 0x03, 0x03, 0x0e, 0x0b, 0x00, 0x00, 0x0c, 0x0b, 0x04, 0x0a, 0x06, 0x0b, 0x09,
  0x00, 0x0b, 0x00, 0x07, 0x02, 0x02, 0x01, 0x0e, 0x09, 0x07, 0x07, 0x0c, 0x0d, 0x0b, 0x0b, 0x08,
  0x02, 0x09, 0x02, 0x04, 0x03, 0x0e, 0x06, 0x01, 0x0f, 0x0e, 0x0f, 0x0e, 0x04, 0x05, 0x01, 0x03,
  0x03, 0x07, 0x0b, 0x0d, 0x06, 0x02, 0x0d, 0x07, 0x05, 0x0f, 0x07, 0x0a, 0x07, 0x02, 0x0f, 0x0a,
  0x00, 0x09, 0x06, 0x0f, 0x06, 0x08, 0x07, 0x05, 0x09, 0x08, 0x09, 0x02, 0x04, 0x01, 0x03, 0x06]

/-- Forward S-box lookup (`getSBoxValue` macro). -/
def getSBoxValue (num : Nat) : Nat := sbox.getD num 0

/-- Inverse S-box lookup (`getSBoxInvert` macro). -/
def getSBoxInvert (num : Nat) : Nat := rsbox.getD num 0

/-- SubBytes-predictor table lookup (`getHBoxValue` macro). -/
def getHBoxValue (num : Nat) : Nat := h_rd.getD num 0

/-- GF(2^8) multiplication by x (`xtime` in `aes.c`); the `% 256` is the
`uint8_t` truncation of the returned value. -/
def xtime (x : Nat) : Nat :=
  ((x <<< 1) ^^^ (((x >>> 7) &&& 1) * 0x1b)) % 256

/-- GF(2^8) multiplication (`Multiply` macro in `aes.c`). -/
def Multiply (x y : Nat) : Nat :=
  ((y &&& 1) * x) ^^^
    (((y >>> 1) &&& 1) * xtime x) ^^^
    (((y >>> 2) &&& 1) * xtime (xtime x)) ^^^
    (((y >>> 3) &&& 1) * xtime (xtime (xtime x))) ^^^
    (((y >>> 4) &&& 1) * xtime (xtime (xtime (xtime x))))

/-- Bit extraction (`get_bit` in `aes.c`); bits in the byte are numbered 0-7. -/
def get_bit (byte bitnum : Nat) : Nat := (byte >>> bitnum) &&& 0x01

/-- Bit flip (`flip_bit` in `aes.c`); the `% 256` is the `uint8_t`
truncation of the returned value. -/
def flip_bit (byte target : Nat) : Nat := (byte ^^^ (0x01 <<< target)) % 256

/-- Hamming encoder (`hamming_encode` in `aes.c`): packs the four parity
bits of a data byte as `(p3 p2 p1 p0)` in the low nibble. -/
def hamming_encode (given : Nat) : Nat :=
  let zero := get_bit given 0
  let one := get_bit given 1
  let two := get_bit given 2
  let three := get_bit given 3
  let four := get_bit given 4
  let five := get_bit given 5
  let six := get_bit given 6
  let seven := get_bit given 7
  let setzero := three ^^^ two ^^^ one ^^^ zero
  let setone := six ^^^ five ^^^ four ^^^ zero
  let settwo := seven ^^^ five ^^^ four ^^^ two ^^^ one
  let setthree := seven ^^^ six ^^^ four ^^^ three ^^^ one
  setzero ||| (setone <<< 0x01) ||| (settwo <<< 0x02) ||| (setthree <<< 0x03)

/-- One step of the syndrome scan in `correct_state`: for parity position
`x`, if bit `x` of `diff` is 0 record it in `pone` (first) or `ptwo`
(second); `-1` is the C sentinel for unset. -/
def scanStep (diff : Nat) (pr : Int × Int) (x : Nat) : Int × Int :=
  if (diff >>> x) % 2 = 0 then
    (if pr.1 = -1 then ((x : Int), pr.2)
     else if pr.2 = -1 then (pr.1, (x : Int))
     else pr)
  else pr

/-- The `for (x = 3; x >= 0; --x)` scan of `correct_state`, producing the
pair `(pone, ptwo)`. -/
def scanZeros (diff : Nat) : Int × Int :=
  List.foldl (scanStep diff) (-1, -1) [3, 2, 1, 0]

/-- Per-cell body of `correct_state` in `aes.c`: `s` is the state byte,
`h` the observed code `(*hamstate)[c][r]`, `p` the predicted code
`(*pcode)[c][r]`.  The if-chain is the source's (pone, ptwo) table. -/
def correct_cell (s h p : Nat) : Nat :=
  let diff := h ^^^ p
  if diff ≠ 0 then
    let pr := scanZeros diff
    if pr.1 = 3 ∧ pr.2 = 2 then flip_bit s 0x00
    else if pr.1 = 3 ∧ pr.2 = 1 then flip_bit s 0x02
    else if pr.1 = 3 ∧ pr.2 = 0 then flip_bit s 0x05
    else if pr.1 = 2 ∧ pr.2 = 1 then flip_bit s 0x03
    else if pr.1 = 2 ∧ pr.2 = 0 then flip_bit s 0x06
    else if pr.1 = 1 ∧ pr.2 = 0 then flip_bit s 0x07
    else if pr.1 = 1 ∧ pr.2 = -1 then flip_bit s 0x01
    else if pr.1 = 0 ∧ pr.2 = -1 then flip_bit s 0x04
    else s
  else s

/-- The 4×4 byte matrix `state_t` (also used for `hamstate_t`): field
`sCR` is the C cell `[C][R]`. -/
structure St where
  s00 : Nat
  s01 : Nat
  s02 : Nat
  s03 : Nat
  s10 : Nat
  s11 : Nat
  s12 : Nat
  s13 : Nat
  s20 : Nat
  s21 : Nat
  s22 : Nat
  s23 : Nat
  s30 : Nat
  s31 : Nat
  s32 : Nat
  s33 : Nat
deriving DecidableEq

/-- Apply a byte function to each cell (the doubly nested loops of
`encode_state`, `SubBytes`, `InvSubBytes`). -/
def mapSt (f : Nat → Nat) (s : St) : St :=
  ⟨f s.s00, f s.s01, f s.s02, f s.s03, f s.s10, f s.s11, f s.s12, f s.s13,
   f s.s20, f s.s21, f s.s22, f s.s23, f s.s30, f s.s31, f s.s32, f s.s33⟩

/-- Combine two matrices cellwise (the XOR loops of `AddRoundKey` and
`predictAddKey`). -/
def zipSt (f : Nat → Nat → Nat) (a b : St) : St :=
  ⟨f a.s00 b.s00, f a.s01 b.s01, f a.s02 b.s02, f a.s03 b.s03,
   f a.s10 b.s10, f a.s11 b.s11, f a.s12 b.s12, f a.s13 b.s13,
   f a.s20 b.s20, f a.s21 b.s21, f a.s22 b.s22, f a.s23 b.s23,
   f a.s30 b.s30, f a.s31 b.s31, f a.s32 b.s32, f a.s33 b.s33⟩

/-- Reinterpret a 16-byte buffer as a `state_t` (cell `[c][r]` is buffer
byte `4*c + r`). -/
def stateOfBytes (b : List Nat) : St :=
  ⟨b.getD 0 0, b.getD 1 0, b.getD 2 0, b.getD 3 0,
   b.getD 4 0, b.getD 5 0, b.getD 6 0, b.getD 7 0,
   b.getD 8 0, b.getD 9 0, b.getD 10 0, b.getD 11 0,
   b.getD 12 0, b.getD 13 0, b.getD 14 0, b.getD 15 0⟩

/-- Read a `state_t` back as its 16-byte buffer. -/
def bytesOfState (s : St) : List Nat :=
  [s.s00, s.s01, s.s02, s.s03, s.s10, s.s11, s.s12, s.s13,
   s.s20, s.s21, s.s22, s.s23, s.s30, s.s31, s.s32, s.s33]

/-- Hamming-encode every cell (`encode_state` in `aes.c`). -/
def encode_state (s : St) : St := mapSt hamming_encode s

/-- The nested `for (r) for (c)` loops of `correct_state`, applied per
cell; `correct_state` only writes `(*state)[c][r]`, never the two code
matrices. -/
def correct_state (s h p : St) : St :=
  ⟨correct_cell s.s00 h.s00 p.s00, correct_cell s.s01 h.s01 p.s01,
   correct_cell s.s02 h.s02 p.s02, correct_cell s.s03 h.s03 p.s03,
   correct_cell s.s10 h.s10 p.s10, correct_cell s.s11 h.s11 p.s11,
   correct_cell s.s12 h.s12 p.s12, correct_cell s.s13 h.s13 p.s13,
   correct_cell s.s20 h.s20 p.s20, correct_cell s.s21 h.s21 p.s21,
   correct_cell s.s22 h.s22 p.s22, correct_cell s.s23 h.s23 p.s23,
   correct_cell s.s30 h.s30 p.s30, correct_cell s.s31 h.s31 p.s31,
   correct_cell s.s32 h.s32 p.s32, correct_cell s.s33 h.s33 p.s33⟩

/-- Compare-and-correct (`compareCodes` in `aes.c`).  On mismatch it runs
`correct_state` on the state and then re-runs the *same* `memcmp` on the
unchanged `hamstate`/`pcode` matrices; if that still differs it calls
`exit(2)`, modelled as `Except.error 2`. -/
def compareCodes (s h p : St) : Except Nat St :=
  if h ≠ p then
    let s' := correct_state s h p
    if h ≠ p then Except.error 2 else Except.ok s'
  else Except.ok s

/-- Round-key byte `RoundKey[(round * Nb * 4) + (i * Nb) + j]`. -/
def rkByte (rk : List Nat) (round i j : Nat) : Nat :=
  rk.getD (round * 4 * 4 + i * 4 + j) 0

/-- The 16 round-key bytes of a round arranged as the matrix the state
loops read (`[i][j]` cell is `RoundKey[round*16 + i*4 + j]`). -/
def rkSt (rk : List Nat) (round : Nat) : St :=
  ⟨rkByte rk round 0 0, rkByte rk round 0 1, rkByte rk round 0 2, rkByte rk round 0 3,
   rkByte rk round 1 0, rkByte rk round 1 1, rkByte rk round 1 2, rkByte rk round 1 3,
   rkByte rk round 2 0, rkByte rk round 2 1, rkByte rk round 2 2, rkByte rk round 2 3,
   rkByte rk round 3 0, rkByte rk round 3 1, rkByte rk round 3 2, rkByte rk round 3 3⟩

/-- Parity predictor for AddRoundKey (`predictAddKey` in `aes.c`): XOR the
Hamming code of each round-key byte into the predicted-code matrix. -/
def predictAddKey (round : Nat) (rk : List Nat) (pcode : St) : St :=
  zipSt (fun a b => a ^^^ b) pcode (mapSt hamming_encode (rkSt rk round))

/-- Parity predictor for SubBytes (`predictSub` in `aes.c`): overwrite the
predicted code of each cell with the `h_rd` table entry of the
pre-substitution state byte. -/
def predictSub (state _pcode : St) : St := mapSt getHBoxValue state

/-- Parity predictor for ShiftRows (`predictShift` in `aes.c`): the same
row rotations as `ShiftRows`, applied to the predicted-code matrix. -/
def predictShift (p : St) : St :=
  ⟨p.s00, p.s11, p.s22, p.s33,
   p.s10, p.s21, p.s32, p.s03,
   p.s20, p.s31, p.s02, p.s13,
   p.s30, p.s01, p.s12, p.s23⟩

/-- Parity predictor for MixColumns (`predictMixCols` in `aes.c`),
computed online from the pre-transform state. -/
def predictMixCols (s _pcode : St) : St :=
  ⟨hamming_encode (xtime s.s00) ^^^ hamming_encode (Multiply s.s01 0x03) ^^^
     hamming_encode s.s02 ^^^ hamming_encode s.s03,
   hamming_encode s.s00 ^^^ hamming_encode (xtime s.s01) ^^^
     hamming_encode (Multiply s.s02 0x03) ^^^ hamming_encode s.s03,
   hamming_encode s.s00 ^^^ hamming_encode s.s01 ^^^
     hamming_encode (xtime s.s02) ^^^ hamming_encode (Multiply s.s03 0x03),
   hamming_encode (Multiply s.s00 0x03) ^^^ hamming_encode s.s01 ^^^
     hamming_encode s.s02 ^^^ hamming_encode (xtime s.s03),
   hamming_encode (xtime s.s10) ^^^ hamming_encode (Multiply s.s11 0x03) ^^^
     hamming_encode s.s12 ^^^ hamming_encode s.s13,
   hamming_encode s.s10 ^^^ hamming_encode (xtime s.s11) ^^^
     hamming_encode (Multiply s.s12 0x03) ^^^ hamming_encode s.s13,
   hamming_encode s.s10 ^^^ hamming_encode s.s11 ^^^
     hamming_encode (xtime s.s12) ^^^ hamming_encode (Multiply s.s13 0x03),
   hamming_encode (Multiply s.s10 0x03) ^^^ hamming_encode s.s11 ^^^
     hamming_encode s.s12 ^^^ hamming_encode (xtime s.s13),
   hamming_encode (xtime s.s20) ^^^ hamming_encode (Multiply s.s21 0x03) ^^^
     hamming_encode s.s22 ^^^ hamming_encode s.s23,
   hamming_encode s.s20 ^^^ hamming_encode (xtime s.s21) ^^^
     hamming_encode (Multiply s.s22 0x03) ^^^ hamming_encode s.s23,
   hamming_encode s.s20 ^^^ hamming_encode s.s21 ^^^
     hamming_encode (xtime s.s22) ^^^ hamming_encode (Multiply s.s23 0x03),
   hamming_encode (Multiply s.s20 0x03) ^^^ hamming_encode s.s21 ^^^
     hamming_encode s.s22 ^^^ hamming_encode (xtime s.s23),
   hamming_encode (xtime s.s30) ^^^ hamming_encode (Multiply s.s31 0x03) ^^^
     hamming_encode s.s32 ^^^ hamming_encode s.s33,
   hamming_encode s.s30 ^^^ hamming_encode (xtime s.s31) ^^^
     hamming_encode (Multiply s.s32 0x03) ^^^ hamming_encode s.s33,
   hamming_encode s.s30 ^^^ hamming_encode s.s31 ^^^
     hamming_encode (xtime s.s32) ^^^ hamming_encode (Multiply s.s33 0x03),
   hamming_encode (Multiply s.s30 0x03) ^^^ hamming_encode s.s31 ^^^
     hamming_encode s.s32 ^^^ hamming_encode (xtime s.s33)⟩

/-!
The state-mutation halves of the four forward round transforms, exactly
as performed on `(*state)` by `AddRoundKey`, `SubBytes`, `ShiftRows` and
`MixColumns` in `aes.c` (without the parity overlay), plus the inverse
transforms used by `InvCipher`.
-/

/-- The XOR loop of `AddRoundKey`: `(*state)[i][j] ^= RoundKey[round*16 + i*4 + j]`. -/
def addRoundKeySt (round : Nat) (rk : List Nat) (s : St) : St :=
  zipSt (fun a b => a ^^^ b) s (rkSt rk round)

/-- The substitution loop of `SubBytes`: `(*state)[j][i] = sbox[(*state)[j][i]]`. -/
def subBytesSt (s : St) : St := mapSt getSBoxValue s

/-- The row rotations of `ShiftRows` on the state matrix. -/
def shiftRowsSt (s : St) : St :=
  ⟨s.s00, s.s11, s.s22, s.s33,
   s.s10, s.s21, s.s32, s.s03,
   s.s20, s.s31, s.s02, s.s13,
   s.s30, s.s01, s.s12, s.s23⟩

/-- One column of the `MixColumns` loop body (`t`, `Tmp`, `Tm` as in the
source); returns the four updated column bytes. -/
def mixColumn (a b c d : Nat) : Nat × Nat × Nat × Nat :=
  let t := a
  let tmp := a ^^^ b ^^^ c ^^^ d
  (a ^^^ (xtime (a ^^^ b) ^^^ tmp),
   b ^^^ (xtime (b ^^^ c) ^^^ tmp),
   c ^^^ (xtime (c ^^^ d) ^^^ tmp),
   d ^^^ (xtime (d ^^^ t) ^^^ tmp))

/-- The column loop of `MixColumns` on the state matrix. -/
def mixColumnsSt (s : St) : St :=
  let c0 := mixColumn s.s00 s.s01 s.s02 s.s03
  let c1 := mixColumn s.s10 s.s11 s.s12 s.s13
  let c2 := mixColumn s.s20 s.s21 s.s22 s.s23
  let c3 := mixColumn s.s30 s.s31 s.s32 s.s33
  ⟨c0.1, c0.2.1, c0.2.2.1, c0.2.2.2,
   c1.1, c1.2.1, c1.2.2.1, c1.2.2.2,
   c2.1, c2.2.1, c2.2.2.1, c2.2.2.2,
   c3.1, c3.2.1, c3.2.2.1, c3.2.2.2⟩

/-- `InvSubBytes` in `aes.c`. -/
def InvSubBytes (s : St) : St := mapSt getSBoxInvert s

/-- `InvShiftRows` in `aes.c`: each row rotated right by its index. -/
def InvShiftRows (s : St) : St :=
  ⟨s.s00, s.s31, s.s22, s.s13,
   s.s10, s.s01, s.s32, s.s23,
   s.s20, s.s11, s.s02, s.s33,
   s.s30, s.s21, s.s12, s.s03⟩

/-- One column of `InvMixColumns`. -/
def invMixColumn (a b c d : Nat) : Nat × Nat × Nat × Nat :=
  (Multiply a 0x0e ^^^ Multiply b 0x0b ^^^ Multiply c 0x0d ^^^ Multiply d 0x09,
   Multiply a 0x09 ^^^ Multiply b 0x0e ^^^ Multiply c 0x0b ^^^ Multiply d 0x0d,
   Multiply a 0x0d ^^^ Multiply b 0x09 ^^^ Multiply c 0x0e ^^^ Multiply d 0x0b,
   Multiply a 0x0b ^^^ Multiply b 0x0d ^^^ Multiply c 0x09 ^^^ Multiply d 0x0e)

/-- `InvMixColumns` in `aes.c`. -/
def InvMixColumns (s : St) : St :=
  let c0 := invMixColumn s.s00 s.s01 s.s02 s.s03
  let c1 := invMixColumn s.s10 s.s11 s.s12 s.s13
  let c2 := invMixColumn s.s20 s.s21 s.s22 s.s23
  let c3 := invMixColumn s.s30 s.s31 s.s32 s.s33
  ⟨c0.1, c0.2.1, c0.2.2.1, c0.2.2.2,
   c1.1, c1.2.1, c1.2.2.1, c1.2.2.2,
   c2.1, c2.2.1, c2.2.2.1, c2.2.2.2,
   c3.1, c3.2.1, c3.2.2.1, c3.2.2.2⟩

/-!
The four overlay round transforms.  Each runs its predictor, mutates the
state, re-encodes the state into the (entirely overwritten) `hamstate`,
and calls `compareCodes`.  The `hamstate` argument of the C functions is
write-only before `compareCodes` reads it, so it is not an input here;
each transform returns the possibly-corrected state and the updated
predicted-code matrix.
-/

/-- `AddRoundKey` in `aes.c` (overlay version). -/
def AddRoundKey (round : Nat) (rk : List Nat) (s pcode : St) :
    Except Nat (St × St) :=
  let p' := predictAddKey round rk pcode
  let s' := addRoundKeySt round rk s
  let h' := encode_state s'
  (compareCodes s' h' p').map (fun s'' => (s'', p'))

/-- `SubBytes` in `aes.c` (overlay version). -/
def SubBytes (s pcode : St) : Except Nat (St × St) :=
  let p' := predictSub s pcode
  let s' := subBytesSt s
  let h' := encode_state s'
  (compareCodes s' h' p').map (fun s'' => (s'', p'))

/-- `ShiftRows` in `aes.c` (overlay version). -/
def ShiftRows (s pcode : St) : Except Nat (St × St) :=
  let p' := predictShift pcode
  let s' := shiftRowsSt s
  let h' := encode_state s'
  (compareCodes s' h' p').map (fun s'' => (s'', p'))

/-- `MixColumns` in `aes.c` (overlay version). -/
def MixColumns (s pcode : St) : Except Nat (St × St) :=
  let p' := predictMixCols s pcode
  let s' := mixColumnsSt s
  let h' := encode_state s'
  (compareCodes s' h' p').map (fun s'' => (s'', p'))

/-- Number of rounds for AES-128 (`Nr` in `aes.c`). -/
def Nr : Nat := 10

/-- One expansion step of `KeyExpansion`: given the words built so far,
append word `i` (where `i = acc.length / 4`). -/
def keyExpandWord (acc : List Nat) : List Nat :=
  let i := acc.length / 4
  let k := (i - 1) * 4
  let t0 := acc.getD k 0
  let t1 := acc.getD (k + 1) 0
  let t2 := acc.getD (k + 2) 0
  let t3 := acc.getD (k + 3) 0
  let a :=
    if i % 4 = 0 then
      (getSBoxValue t1 ^^^ Rcon.getD (i / 4) 0,
       getSBoxValue t2, getSBoxValue t3, getSBoxValue t0)
    else (t0, t1, t2, t3)
  let k2 := (i - 4) * 4
  acc ++ [acc.getD k2 0 ^^^ a.1, acc.getD (k2 + 1) 0 ^^^ a.2.1,
          acc.getD (k2 + 2) 0 ^^^ a.2.2.1, acc.getD (k2 + 3) 0 ^^^ a.2.2.2]

/-- `KeyExpansion` in `aes.c` for AES-128: the first `Nk = 4` words are
the key itself, then words 4..43 are generated in order. -/
def KeyExpansion (key : List Nat) : List Nat :=
  (List.range 40).foldl (fun acc _ => keyExpandWord acc) (key.take 16)

/-- `AES_init_ctx` in `aes.c`: the context is the expanded round key. -/
def AES_init_ctx (key : List Nat) : List Nat := KeyExpansion key

/-- The `for (round = 1;; ++round)` loop of `Cipher`: at each entry it
runs SubBytes and ShiftRows, breaks out of the loop when `round = Nr`
(`fuel = 0`), and otherwise continues with MixColumns and AddRoundKey.
The final `AddRoundKey(Nr)` after the loop is included in the `fuel = 0`
branch. -/
def cipherLoop (rk : List Nat) : Nat → Nat → St × St → Except Nat (St × St)
  | round, fuel, (s, p) => do
    let sp1 ← SubBytes s p
    let sp2 ← ShiftRows sp1.1 sp1.2
    match fuel with
    | 0 => AddRoundKey Nr rk sp2.1 sp2.2
    | f + 1 => do
      let sp3 ← MixColumns sp2.1 sp2.2
      let sp4 ← AddRoundKey round rk sp3.1 sp3.2
      cipherLoop rk (round + 1) f (sp4.1, sp4.2)

/-- `Cipher` in `aes.c`: initialise the predicted codes from the plaintext
state, add round key 0, then run the round loop. -/
def Cipher (rk : List Nat) (s : St) : Except Nat St := do
  let p0 := encode_state s
  let sp1 ← AddRoundKey 0 rk s p0
  let sp2 ← cipherLoop rk 1 (Nr - 1) (sp1.1, sp1.2)
  pure sp2.1

/-- The `for (round = Nr - 1;; --round)` loop of `InvCipher`. -/
def invCipherLoop (rk : List Nat) : Nat → St × St → Except Nat (St × St)
  | round, (s, p) => do
    let s1 := InvShiftRows s
    let s2 := InvSubBytes s1
    let sp3 ← AddRoundKey round rk s2 p
    match round with
    | 0 => pure sp3
    | r + 1 => invCipherLoop rk r (InvMixColumns sp3.1, sp3.2)

/-- `InvCipher` in `aes.c`.  The local `hamstate`/`pcode` matrices are
declared but never initialised before the first `AddRoundKey`; `hamstate`
is fully overwritten before being read, but the garbage initial contents
of `pcode` are observable, so they are taken as the parameter `p0`. -/
def InvCipher (p0 : St) (rk : List Nat) (s : St) : Except Nat St := do
  let sp1 ← AddRoundKey Nr rk s p0
  let sp2 ← invCipherLoop rk (Nr - 1) (sp1.1, sp1.2)
  pure sp2.1

/-- `AES_ECB_encrypt` in `aes.c`, on a 16-byte buffer. -/
def AES_ECB_encrypt (rk : List Nat) (buf : List Nat) : Except Nat (List Nat) :=
  (Cipher rk (stateOfBytes buf)).map bytesOfState

/-- `AES_ECB_decrypt` in `aes.c`, on a 16-byte buffer; `p0` is the
uninitialised stack contents of `InvCipher`'s `pcode`. -/
def AES_ECB_decrypt (p0 : St) (rk : List Nat) (buf : List Nat) :
    Except Nat (List Nat) :=
  (InvCipher p0 rk (stateOfBytes buf)).map bytesOfState

/-- `XorWithIv` in `aes.c`: XOR a 16-byte block with the IV. -/
def XorWithIv (buf iv : List Nat) : List Nat :=
  List.zipWith (fun a b => a ^^^ b) buf iv

/-- The 16-byte slice of `buf` starting at offset `i`. -/
def slice16 (buf : List Nat) (i : Nat) : List Nat := (buf.drop i).take 16

/-- Overwrite the 16-byte slice of `buf` at offset `i` with `c`. -/
def writeSlice16 (buf : List Nat) (i : Nat) (c : List Nat) : List Nat :=
  buf.take i ++ c ++ buf.drop (i + 16)

/-- The `for (i = 0; i < length; i += 16)` loop of
`AES_CBC_encrypt_buffer`: XOR the block at offset `i` with the running
IV, encrypt it in place, and chain the ciphertext as the next IV.
Returns the final buffer and the IV stored back into the context. -/
def cbcEncLoop (rk : List Nat) (length : Nat) (i : Nat) (buf iv : List Nat) :
    Except Nat (List Nat × List Nat) :=
  if _h : i < length then do
    let block := XorWithIv (slice16 buf i) iv
    let c ← (Cipher rk (stateOfBytes block)).map bytesOfState
    cbcEncLoop rk length (i + 16) (writeSlice16 buf i c) c
  else pure (buf, iv)
termination_by length - i
decreasing_by omega

/-- `AES_CBC_encrypt_buffer` in `aes.c` (note: the source performs no
validation of `length`). -/
def AES_CBC_encrypt_buffer (rk : List Nat) (iv buf : List Nat) (length : Nat) :
    Except Nat (List Nat × List Nat) :=
  cbcEncLoop rk length 0 buf iv

/-- The loop of `AES_CBC_decrypt_buffer`; `p0` is the uninitialised
`pcode` of each `InvCipher` call. -/
def cbcDecLoop (p0 : St) (rk : List Nat) (length : Nat) (i : Nat)
    (buf iv : List Nat) : Except Nat (List Nat × List Nat) :=
  if _h : i < length then do
    let storeNextIv := slice16 buf i
    let d ← (InvCipher p0 rk (stateOfBytes storeNextIv)).map bytesOfState
    let d' := XorWithIv d iv
    cbcDecLoop p0 rk length (i + 16) (writeSlice16 buf i d') storeNextIv
  else pure (buf, iv)
termination_by length - i
decreasing_by omega

/-- `AES_CBC_decrypt_buffer` in `aes.c` (no validation of `length`). -/
def AES_CBC_decrypt_buffer (p0 : St) (rk : List Nat) (iv buf : List Nat)
    (length : Nat) : Except Nat (List Nat × List Nat) :=
  cbcDecLoop p0 rk length 0 buf iv

/-- The counter increment of `AES_CTR_xcrypt_buffer`: from the last byte
backwards, a byte equal to 255 wraps to 0 and the carry continues,
otherwise the byte is incremented and the carry stops. -/
def incIvRev : List Nat → List Nat
  | [] => []
  | b :: rest => if b = 255 then 0 :: incIvRev rest else (b + 1) :: rest

/-- Big-endian counter increment on a 16-byte IV. -/
def incIv (iv : List Nat) : List Nat := (incIvRev iv.reverse).reverse

/-- The block loop of `AES_CTR_xcrypt_buffer`: every 16 input bytes, the
current counter is encrypted into the keystream buffer and the counter is
incremented; each input byte is XORed with its keystream byte.  A final
partial block uses the prefix of its keystream block. -/
def ctrLoop (rk : List Nat) (iv buf : List Nat) :
    Except Nat (List Nat × List Nat) :=
  match _hb : buf with
  | [] => pure ([], iv)
  | _ :: _ => do
    let ks ← (Cipher rk (stateOfBytes iv)).map bytesOfState
    let iv' := incIv iv
    let out := List.zipWith (fun a b => a ^^^ b) (buf.take 16) ks
    let rest ← ctrLoop rk iv' (buf.drop 16)
    pure (out ++ rest.1, rest.2)
termination_by buf.length
decreasing_by simp [_hb]; omega

/-- `AES_CTR_xcrypt_buffer` in `aes.c`: the buffer is the `length` input
bytes; returns the transformed buffer and the final counter. -/
def AES_CTR_xcrypt_buffer (rk : List Nat) (iv buf : List Nat) :
    Except Nat (List Nat × List Nat) :=
  ctrLoop rk iv buf

/-!
The textbook AES-128 cipher (the specification's §4.F round transforms
composed as in §4.I / FIPS-197), with no parity overlay.  This is the
reference point for the refinement claim: the overlay pipeline above is
compared against it.
-/

/-- Textbook AES-128 round loop: rounds `1 .. Nr-1` apply SubBytes,
ShiftRows, MixColumns, AddRoundKey; the final round omits MixColumns and
ends with `AddRoundKey Nr`. -/
def cipherLoopPlain (rk : List Nat) : Nat → Nat → St → St
  | round, fuel, s =>
    let s1 := shiftRowsSt (subBytesSt s)
    match fuel with
    | 0 => addRoundKeySt Nr rk s1
    | f + 1 =>
      cipherLoopPlain rk (round + 1) f (addRoundKeySt round rk (mixColumnsSt s1))

/-- Textbook AES-128 block encryption with expanded round keys `rk`. -/
def CipherPlain (rk : List Nat) (s : St) : St :=
  cipherLoopPlain rk 1 (Nr - 1) (addRoundKeySt 0 rk s)

/-!
Specification-side definitions, used only to state claims against the
source translation above.
-/

/-- Spec-side Hamming encoder, written from the specification's parity
formulas: `p0 = b3 XOR b2 XOR b1 XOR b0`, `p1 = b6 XOR b5 XOR b4 XOR b0`,
`p2 = b7 XOR b5 XOR b4 XOR b2 XOR b1`, `p3 = b7 XOR b6 XOR b4 XOR b3 XOR
b1`, packed as `(p3 p2 p1 p0)` in the low nibble. -/
def hammingSpec (b : Nat) : Nat :=
  let p0 := get_bit b 3 ^^^ get_bit b 2 ^^^ get_bit b 1 ^^^ get_bit b 0
  let p1 := get_bit b 6 ^^^ get_bit b 5 ^^^ get_bit b 4 ^^^ get_bit b 0
  let p2 := get_bit b 7 ^^^ get_bit b 5 ^^^ get_bit b 4 ^^^ get_bit b 2 ^^^ get_bit b 1
  let p3 := get_bit b 7 ^^^ get_bit b 6 ^^^ get_bit b 4 ^^^ get_bit b 3 ^^^ get_bit b 1
  p0 + 2 * p1 + 4 * p2 + 8 * p3

/-- Spec-side syndrome walk: the positions `x = 3, 2, 1, 0` where bit `x`
of `diff` equals 0, the first two recorded as `(pone, ptwo)` with `-1`
for absent. -/
def firstTwoZeros (diff : Nat) : Int × Int :=
  match List.filter (fun x => get_bit diff x == 0) [3, 2, 1, 0] with
  | [] => (-1, -1)
  | [x] => ((x : Int), -1)
  | x :: y :: _ => ((x : Int), (y : Int))

/-- Spec-side syndrome table from the claim: `(pone, ptwo)` to the data
bit to flip; combinations outside the table are uncorrectable (`none`). -/
def synTable (pr : Int × Int) : Option Nat :=
  if pr = (3, 2) then some 0
  else if pr = (3, 1) then some 2
  else if pr = (3, 0) then some 5
  else if pr = (2, 1) then some 3
  else if pr = (2, 0) then some 6
  else if pr = (1, 0) then some 7
  else if pr = (1, -1) then some 1
  else if pr = (0, -1) then some 4
  else none

/-- Spec-side per-cell corrector: diff zero leaves the byte unchanged;
otherwise the table bit (if any) is flipped, and out-of-table syndromes
flip nothing. -/
def specCorrectCell (s h p : Nat) : Nat :=
  let diff := h ^^^ p
  if diff = 0 then s
  else
    match synTable (firstTwoZeros diff) with
    | some t => flip_bit s t
    | none => s

/-- All bytes of a buffer are in range. -/
def bytesLt (l : List Nat) : Prop := ∀ x ∈ l, x < 256

/-- All 16 cells of a state matrix are bytes. -/
def StLt (s : St) : Prop :=
  s.s00 < 256 ∧ s.s01 < 256 ∧ s.s02 < 256 ∧ s.s03 < 256 ∧
  s.s10 < 256 ∧ s.s11 < 256 ∧ s.s12 < 256 ∧ s.s13 < 256 ∧
  s.s20 < 256 ∧ s.s21 < 256 ∧ s.s22 < 256 ∧ s.s23 < 256 ∧
  s.s30 < 256 ∧ s.s31 < 256 ∧ s.s32 < 256 ∧ s.s33 < 256

deriving instance DecidableEq for Except

instance decBytesLt (l : List Nat) : Decidable (bytesLt l) :=
  inferInstanceAs (Decidable (∀ x ∈ l, x < 256))

instance decStLt (s : St) : Decidable (StLt s) := by
  unfold StLt
  infer_instance

/-!
Concrete test vectors (NIST SP 800-38A, ECB-AES128, as quoted in the
header comment of `aes.c`) and the concrete inputs used by witnesses and
counterexamples.
-/

/-- The AES-128 key `2b7e151628aed2a6abf7158809cf4f3c`. -/
def nistKey : List Nat :=
  [0x2b, 0x7e, 0x15, 0x16, 0x28, 0xae, 0xd2, 0xa6,
   0xab, 0xf7, 0x15, 0x88, 0x09, 0xcf, 0x4f, 0x3c]

/-- NIST plaintext block 1. -/
def nistPt1 : List Nat :=
  [0x6b, 0xc1, 0xbe, 0xe2, 0x2e, 0x40, 0x9f, 0x96,
   0xe9, 0x3d, 0x7e, 0x11, 0x73, 0x93, 0x17, 0x2a]

/-- NIST plaintext block 2. -/
def nistPt2 : List Nat :=
  [0xae, 0x2d, 0x8a, 0x57, 0x1e, 0x03, 0xac, 0x9c,
   0x9e, 0xb7, 0x6f, 0xac, 0x45, 0xaf, 0x8e, 0x51]

/-- NIST plaintext block 3. -/
def nistPt3 : List Nat :=
  [0x30, 0xc8, 0x1c, 0x46, 0xa3, 0x5c, 0xe4, 0x11,
   0xe5, 0xfb, 0xc1, 0x19, 0x1a, 0x0a, 0x52, 0xef]

/-- NIST plaintext block 4. -/
def nistPt4 : List Nat :=
  [0xf6, 0x9f, 0x24, 0x45, 0xdf, 0x4f, 0x9b, 0x17,
   0xad, 0x2b, 0x41, 0x7b, 0xe6, 0x6c, 0x37, 0x10]

/-- NIST expected ciphertext block 1. -/
def nistCt1 : List Nat :=
  [0x3a, 0xd7, 0x7b, 0xb4, 0x0d, 0x7a, 0x36, 0x60,
   0xa8, 0x9e, 0xca, 0xf3, 0x24, 0x66, 0xef, 0x97]

/-- NIST expected ciphertext block 2. -/
def nistCt2 : List Nat :=
  [0xf5, 0xd3, 0xd5, 0x85, 0x03, 0xb9, 0x69, 0x9d,
   0xe7, 0x85, 0x89, 0x5a, 0x96, 0xfd, 0xba, 0xaf]

/-- NIST expected ciphertext block 3. -/
def nistCt3 : List Nat :=
  [0x43, 0xb1, 0xcd, 0x7f, 0x59, 0x8e, 0xce, 0x23,
   0x88, 0x1b, 0x00, 0xe3, 0xed, 0x03, 0x06, 0x88]

/-- NIST expected ciphertext block 4. -/
def nistCt4 : List Nat :=
  [0x7b, 0x0c, 0x78, 0x5e, 0x27, 0xe8, 0xad, 0x3f,
   0x82, 0x23, 0x20, 0x71, 0x04, 0x72, 0x5d, 0xd4]

/-- The all-zero 16-byte buffer. -/
def zeroBlock : List Nat := List.replicate 16 0

/-- AES-128 encryption of the zero block under the zero key (computed by
the embedding itself; used as the concrete ciphertext in the decryption
counterexample). -/
def zeroCt : List Nat :=
  [0x66, 0xe9, 0x4b, 0xd4, 0xef, 0x8a, 0x2c, 0x3b,
   0x88, 0x4c, 0xfa, 0x59, 0xca, 0x34, 0x2b, 0x2e]

/-!
Bitwise utility lemmas: XOR distributes through shifts, masking and the
byte truncation, and `hamming_encode` is linear over XOR.
-/

theorem shiftRight_xor (a b n : Nat) :
    (a ^^^ b) >>> n = (a >>> n) ^^^ (b >>> n) := by
  apply Nat.eq_of_testBit_eq
  intro i
  simp [Nat.testBit_shiftRight, Nat.testBit_xor]

theorem shiftLeft_xor (a b n : Nat) :
    (a ^^^ b) <<< n = (a <<< n) ^^^ (b <<< n) := by
  apply Nat.eq_of_testBit_eq
  intro i
  simp only [Nat.testBit_shiftLeft, Nat.testBit_xor]
  by_cases h : n ≤ i <;> simp [h]

theorem mod256_xor (a b : Nat) :
    (a ^^^ b) % 256 = (a % 256) ^^^ (b % 256) := by
  have h : ∀ x : Nat, x % 256 = x &&& 255 := by
    intro x
    have := Nat.and_pow_two_sub_one_eq_mod x 8
    norm_num at this
    omega
  rw [h, h, h, Nat.and_xor_distrib_right]

theorem get_bit_xor (a b n : Nat) :
    get_bit (a ^^^ b) n = get_bit a n ^^^ get_bit b n := by
  unfold get_bit
  rw [shiftRight_xor, Nat.and_xor_distrib_right]

theorem get_bit_lt (a n : Nat) : get_bit a n < 2 := by
  unfold get_bit
  rw [Nat.and_one_is_mod]
  exact Nat.mod_lt _ (by norm_num)

theorem xor_lt_two {a b : Nat} (ha : a < 2) (hb : b < 2) : a ^^^ b < 2 := by
  have := Nat.xor_lt_two_pow (n := 1) (by simpa using ha) (by simpa using hb)
  simpa using this

theorem xor_lt_256 {a b : Nat} (ha : a < 256) (hb : b < 256) : a ^^^ b < 256 := by
  have := Nat.xor_lt_two_pow (n := 8) (by simpa using ha) (by simpa using hb)
  simpa using this

theorem xor_left_comm (a b c : Nat) : a ^^^ (b ^^^ c) = b ^^^ (a ^^^ c) := by
  rw [← Nat.xor_assoc, Nat.xor_comm a b, Nat.xor_assoc]

theorem xor_cancel_left (a b : Nat) : a ^^^ (a ^^^ b) = b := by
  rw [← Nat.xor_assoc, Nat.xor_self, Nat.zero_xor]

/-- XOR-linearity of the 4-bit packing used by `hamming_encode`. -/
theorem pack4_xor (z1 o1 t1 w1 z2 o2 t2 w2 : Nat)
    (hz1 : z1 < 2) (ho1 : o1 < 2) (ht1 : t1 < 2) (hw1 : w1 < 2)
    (hz2 : z2 < 2) (ho2 : o2 < 2) (ht2 : t2 < 2) (hw2 : w2 < 2) :
    (z1 ^^^ z2) ||| ((o1 ^^^ o2) <<< 1) ||| ((t1 ^^^ t2) <<< 2) |||
        ((w1 ^^^ w2) <<< 3) =
      (z1 ||| (o1 <<< 1) ||| (t1 <<< 2) ||| (w1 <<< 3)) ^^^
        (z2 ||| (o2 <<< 1) ||| (t2 <<< 2) ||| (w2 <<< 3)) := by
  interval_cases z1 <;> interval_cases o1 <;> interval_cases t1 <;>
    interval_cases w1 <;> interval_cases z2 <;> interval_cases o2 <;>
    interval_cases t2 <;> interval_cases w2 <;> rfl

/-- The 4-bit packing of `hamming_encode` stays below 16. -/
theorem pack4_lt (z o t w : Nat) (hz : z < 2) (ho : o < 2) (ht : t < 2)
    (hw : w < 2) : z ||| (o <<< 1) ||| (t <<< 2) ||| (w <<< 3) < 16 := by
  interval_cases z <;> interval_cases o <;> interval_cases t <;>
    interval_cases w <;> decide

/-- `hamming_encode` is GF(2)-linear: it distributes over XOR. -/
theorem hamming_encode_xor (a b : Nat) :
    hamming_encode (a ^^^ b) = hamming_encode a ^^^ hamming_encode b := by
  unfold hamming_encode
  simp only [get_bit_xor]
  have p0eq : (get_bit a 3 ^^^ get_bit b 3) ^^^ (get_bit a 2 ^^^ get_bit b 2) ^^^
      (get_bit a 1 ^^^ get_bit b 1) ^^^ (get_bit a 0 ^^^ get_bit b 0) =
      (get_bit a 3 ^^^ get_bit a 2 ^^^ get_bit a 1 ^^^ get_bit a 0) ^^^
      (get_bit b 3 ^^^ get_bit b 2 ^^^ get_bit b 1 ^^^ get_bit b 0) := by
    simp [Nat.xor_assoc, Nat.xor_comm, xor_left_comm]
  have p1eq : (get_bit a 6 ^^^ get_bit b 6) ^^^ (get_bit a 5 ^^^ get_bit b 5) ^^^
      (get_bit a 4 ^^^ get_bit b 4) ^^^ (get_bit a 0 ^^^ get_bit b 0) =
      (get_bit a 6 ^^^ get_bit a 5 ^^^ get_bit a 4 ^^^ get_bit a 0) ^^^
      (get_bit b 6 ^^^ get_bit b 5 ^^^ get_bit b 4 ^^^ get_bit b 0) := by
    simp [Nat.xor_assoc, Nat.xor_comm, xor_left_comm]
  have p2eq : (get_bit a 7 ^^^ get_bit b 7) ^^^ (get_bit a 5 ^^^ get_bit b 5) ^^^
      (get_bit a 4 ^^^ get_bit b 4) ^^^ (get_bit a 2 ^^^ get_bit b 2) ^^^
      (get_bit a 1 ^^^ get_bit b 1) =
      (get_bit a 7 ^^^ get_bit a 5 ^^^ get_bit a 4 ^^^ get_bit a 2 ^^^ get_bit a 1) ^^^
      (get_bit b 7 ^^^ get_bit b 5 ^^^ get_bit b 4 ^^^ get_bit b 2 ^^^ get_bit b 1) := by
    simp [Nat.xor_assoc, Nat.xor_comm, xor_left_comm]
  have p3eq : (get_bit a 7 ^^^ get_bit b 7) ^^^ (get_bit a 6 ^^^ get_bit b 6) ^^^
      (get_bit a 4 ^^^ get_bit b 4) ^^^ (get_bit a 3 ^^^ get_bit b 3) ^^^
      (get_bit a 1 ^^^ get_bit b 1) =
      (get_bit a 7 ^^^ get_bit a 6 ^^^ get_bit a 4 ^^^ get_bit a 3 ^^^ get_bit a 1) ^^^
      (get_bit b 7 ^^^ get_bit b 6 ^^^ get_bit b 4 ^^^ get_bit b 3 ^^^ get_bit b 1) := by
    simp [Nat.xor_assoc, Nat.xor_comm, xor_left_comm]
  rw [p0eq, p1eq, p2eq, p3eq]
  exact pack4_xor _ _ _ _ _ _ _ _
    (xor_lt_two (xor_lt_two (xor_lt_two (get_bit_lt a 3) (get_bit_lt a 2))
        (get_bit_lt a 1)) (get_bit_lt a 0))
    (xor_lt_two (xor_lt_two (xor_lt_two (get_bit_lt a 6) (get_bit_lt a 5))
        (get_bit_lt a 4)) (get_bit_lt a 0))
    (xor_lt_two (xor_lt_two (xor_lt_two (xor_lt_two (get_bit_lt a 7)
        (get_bit_lt a 5)) (get_bit_lt a 4)) (get_bit_lt a 2)) (get_bit_lt a 1))
    (xor_lt_two (xor_lt_two (xor_lt_two (xor_lt_two (get_bit_lt a 7)
        (get_bit_lt a 6)) (get_bit_lt a 4)) (get_bit_lt a 3)) (get_bit_lt a 1))
    (xor_lt_two (xor_lt_two (xor_lt_two (get_bit_lt b 3) (get_bit_lt b 2))
        (get_bit_lt b 1)) (get_bit_lt b 0))
    (xor_lt_two (xor_lt_two (xor_lt_two (get_bit_lt b 6) (get_bit_lt b 5))
        (get_bit_lt b 4)) (get_bit_lt b 0))
    (xor_lt_two (xor_lt_two (xor_lt_two (xor_lt_two (get_bit_lt b 7)
        (get_bit_lt b 5)) (get_bit_lt b 4)) (get_bit_lt b 2)) (get_bit_lt b 1))
    (xor_lt_two (xor_lt_two (xor_lt_two (xor_lt_two (get_bit_lt b 7)
        (get_bit_lt b 6)) (get_bit_lt b 4)) (get_bit_lt b 3)) (get_bit_lt b 1))

/-- `xtime` is GF(2)-linear: it distributes over XOR. -/
theorem xtime_xor (a b : Nat) : xtime (a ^^^ b) = xtime a ^^^ xtime b := by
  unfold xtime
  rw [shiftLeft_xor, shiftRight_xor, Nat.and_xor_distrib_right]
  have hmul : ((a >>> 7) &&& 1 ^^^ (b >>> 7) &&& 1) * 0x1b =
      ((a >>> 7) &&& 1) * 0x1b ^^^ ((b >>> 7) &&& 1) * 0x1b := by
    have ha : (a >>> 7) &&& 1 < 2 := get_bit_lt a 7
    have hb : (b >>> 7) &&& 1 < 2 := get_bit_lt b 7
    interval_cases h1 : (a >>> 7) &&& 1 <;> interval_cases h2 : (b >>> 7) &&& 1 <;> rfl
  rw [hmul]
  have hAC : (a <<< 1 ^^^ b <<< 1) ^^^
      (((a >>> 7) &&& 1) * 0x1b ^^^ ((b >>> 7) &&& 1) * 0x1b) =
      (a <<< 1 ^^^ ((a >>> 7) &&& 1) * 0x1b) ^^^
      (b <<< 1 ^^^ ((b >>> 7) &&& 1) * 0x1b) := by
    simp [Nat.xor_assoc, Nat.xor_comm, xor_left_comm]
  rw [hAC, mod256_xor]

/-- `Multiply x 3` is `x XOR xtime x`. -/
theorem Multiply_three (x : Nat) : Multiply x 3 = x ^^^ xtime x := by
  simp [Multiply]

/-!
Table facts and range lemmas.
-/

theorem getD_lt_of {l : List Nat} {n : Nat} (h : ∀ x ∈ l, x < n) (hn : 0 < n)
    (i : Nat) : l.getD i 0 < n := by
  induction l generalizing i with
  | nil => simpa [List.getD] using hn
  | cons b t ih =>
    cases i with
    | zero => exact h b (by simp)
    | succ j =>
      simpa [List.getD] using ih (fun x hx => h x (by simp [hx])) j

set_option maxRecDepth 10000 in
theorem sbox_lt : ∀ x ∈ sbox, x < 256 := by decide

set_option maxRecDepth 10000 in
theorem rsbox_lt : ∀ x ∈ rsbox, x < 256 := by decide

set_option maxRecDepth 10000 in
theorem Rcon_lt : ∀ x ∈ Rcon, x < 256 := by decide

theorem getSBoxValue_lt (b : Nat) : getSBoxValue b < 256 :=
  getD_lt_of sbox_lt (by norm_num) b

theorem xtime_lt (x : Nat) : xtime x < 256 := Nat.mod_lt _ (by norm_num)

set_option maxRecDepth 100000 in
/-- The `h_rd` table agrees with the Hamming encoding of the S-box image
on every byte. -/
theorem hrd_hamming (b : Nat) (hb : b < 256) :
    getHBoxValue b = hamming_encode (getSBoxValue b) := by
  have h : ∀ x : Fin 256, getHBoxValue x.val = hamming_encode (getSBoxValue x.val) := by
    decide
  exact h ⟨b, hb⟩

/-!
Predictor correctness: after each forward round transform the freshly
re-encoded Hamming matrix equals the predicted matrix, provided the
prediction started from the encoding of the pre-transform state.
-/

theorem pred_ark (round : Nat) (rk : List Nat) (s : St) :
    encode_state (addRoundKeySt round rk s) =
      predictAddKey round rk (encode_state s) := by
  simp [encode_state, addRoundKeySt, predictAddKey, mapSt, zipSt,
    St.mk.injEq, hamming_encode_xor]

theorem pred_sub (s : St) (hs : StLt s) (p : St) :
    encode_state (subBytesSt s) = predictSub s p := by
  obtain ⟨h00, h01, h02, h03, h10, h11, h12, h13,
    h20, h21, h22, h23, h30, h31, h32, h33⟩ := hs
  simp [encode_state, subBytesSt, predictSub, mapSt, St.mk.injEq,
    hrd_hamming _ h00, hrd_hamming _ h01, hrd_hamming _ h02, hrd_hamming _ h03,
    hrd_hamming _ h10, hrd_hamming _ h11, hrd_hamming _ h12, hrd_hamming _ h13,
    hrd_hamming _ h20, hrd_hamming _ h21, hrd_hamming _ h22, hrd_hamming _ h23,
    hrd_hamming _ h30, hrd_hamming _ h31, hrd_hamming _ h32, hrd_hamming _ h33]

theorem pred_shift (s : St) :
    encode_state (shiftRowsSt s) = predictShift (encode_state s) := rfl

/-- Cell 0 of a MixColumns column matches its predicted code. -/
theorem mixPredCell0 (a b c d : Nat) :
    hamming_encode (a ^^^ (xtime (a ^^^ b) ^^^ (a ^^^ b ^^^ c ^^^ d))) =
      hamming_encode (xtime a) ^^^ hamming_encode (Multiply b 3) ^^^
        hamming_encode c ^^^ hamming_encode d := by
  rw [Multiply_three, xtime_xor]
  simp only [hamming_encode_xor]
  simp [Nat.xor_assoc, Nat.xor_comm, xor_left_comm, Nat.xor_self,
    Nat.xor_zero, Nat.zero_xor, xor_cancel_left]

/-- Cell 1 of a MixColumns column matches its predicted code. -/
theorem mixPredCell1 (a b c d : Nat) :
    hamming_encode (b ^^^ (xtime (b ^^^ c) ^^^ (a ^^^ b ^^^ c ^^^ d))) =
      hamming_encode a ^^^ hamming_encode (xtime b) ^^^
        hamming_encode (Multiply c 3) ^^^ hamming_encode d := by
  rw [Multiply_three, xtime_xor]
  simp only [hamming_encode_xor]
  simp [Nat.xor_assoc, Nat.xor_comm, xor_left_comm, Nat.xor_self,
    Nat.xor_zero, Nat.zero_xor, xor_cancel_left]

/-- Cell 2 of a MixColumns column matches its predicted code. -/
theorem mixPredCell2 (a b c d : Nat) :
    hamming_encode (c ^^^ (xtime (c ^^^ d) ^^^ (a ^^^ b ^^^ c ^^^ d))) =
      hamming_encode a ^^^ hamming_encode b ^^^
        hamming_encode (xtime c) ^^^ hamming_encode (Multiply d 3) := by
  rw [Multiply_three, xtime_xor]
  simp only [hamming_encode_xor]
  simp [Nat.xor_assoc, Nat.xor_comm, xor_left_comm, Nat.xor_self,
    Nat.xor_zero, Nat.zero_xor, xor_cancel_left]

/-- Cell 3 of a MixColumns column matches its predicted code. -/
theorem mixPredCell3 (a b c d : Nat) :
    hamming_encode (d ^^^ (xtime (d ^^^ a) ^^^ (a ^^^ b ^^^ c ^^^ d))) =
      hamming_encode (Multiply a 3) ^^^ hamming_encode b ^^^
        hamming_encode c ^^^ hamming_encode (xtime d) := by
  rw [Multiply_three, xtime_xor]
  simp only [hamming_encode_xor]
  simp [Nat.xor_assoc, Nat.xor_comm, xor_left_comm, Nat.xor_self,
    Nat.xor_zero, Nat.zero_xor, xor_cancel_left]

theorem pred_mix (s : St) (p : St) :
    encode_state (mixColumnsSt s) = predictMixCols s p := by
  simp only [encode_state, mixColumnsSt, mixColumn, predictMixCols, mapSt,
    St.mk.injEq]
  exact ⟨mixPredCell0 _ _ _ _, mixPredCell1 _ _ _ _, mixPredCell2 _ _ _ _,
    mixPredCell3 _ _ _ _, mixPredCell0 _ _ _ _, mixPredCell1 _ _ _ _,
    mixPredCell2 _ _ _ _, mixPredCell3 _ _ _ _, mixPredCell0 _ _ _ _,
    mixPredCell1 _ _ _ _, mixPredCell2 _ _ _ _, mixPredCell3 _ _ _ _,
    mixPredCell0 _ _ _ _, mixPredCell1 _ _ _ _, mixPredCell2 _ _ _ _,
    mixPredCell3 _ _ _ _⟩

/-!
Compare-and-correct and the overlay transforms on the fault-free path.
-/

theorem compareCodes_eq (s h p : St) :
    compareCodes s h p = if h = p then Except.ok s else Except.error 2 := by
  unfold compareCodes
  by_cases hp : h = p <;> simp [hp]

theorem overlayStep_eq (s' p' : St) :
    (compareCodes s' (encode_state s') p').map (fun s'' => (s'', p')) =
      if encode_state s' = p' then Except.ok (s', p') else Except.error 2 := by
  rw [compareCodes_eq]
  by_cases h : encode_state s' = p' <;> simp [h, Except.map]

theorem AddRoundKey_ok (round : Nat) (rk : List Nat) (s : St) :
    AddRoundKey round rk s (encode_state s) =
      Except.ok (addRoundKeySt round rk s,
        encode_state (addRoundKeySt round rk s)) := by
  unfold AddRoundKey
  rw [overlayStep_eq, ← pred_ark, if_pos rfl]

theorem SubBytes_ok (s : St) (hs : StLt s) (p : St) :
    SubBytes s p =
      Except.ok (subBytesSt s, encode_state (subBytesSt s)) := by
  unfold SubBytes
  rw [overlayStep_eq, show predictSub s p = encode_state (subBytesSt s) from
    (pred_sub s hs p).symm, if_pos rfl]

theorem ShiftRows_ok (s : St) :
    ShiftRows s (encode_state s) =
      Except.ok (shiftRowsSt s, encode_state (shiftRowsSt s)) := by
  unfold ShiftRows
  rw [overlayStep_eq, ← pred_shift, if_pos rfl]

theorem MixColumns_ok (s : St) (p : St) :
    MixColumns s p =
      Except.ok (mixColumnsSt s, encode_state (mixColumnsSt s)) := by
  unfold MixColumns
  rw [overlayStep_eq, show predictMixCols s p = encode_state (mixColumnsSt s) from
    (pred_mix s p).symm, if_pos rfl]

/-!
Byte-range preservation through the round transforms and key expansion.
-/

theorem rkByte_lt {rk : List Nat} (hrk : bytesLt rk) (round i j : Nat) :
    rkByte rk round i j < 256 :=
  getD_lt_of hrk (by norm_num) _

theorem StLt_ark {rk : List Nat} (hrk : bytesLt rk) (round : Nat) {s : St}
    (hs : StLt s) : StLt (addRoundKeySt round rk s) := by
  obtain ⟨h00, h01, h02, h03, h10, h11, h12, h13,
    h20, h21, h22, h23, h30, h31, h32, h33⟩ := hs
  exact ⟨xor_lt_256 h00 (rkByte_lt hrk _ _ _), xor_lt_256 h01 (rkByte_lt hrk _ _ _),
    xor_lt_256 h02 (rkByte_lt hrk _ _ _), xor_lt_256 h03 (rkByte_lt hrk _ _ _),
    xor_lt_256 h10 (rkByte_lt hrk _ _ _), xor_lt_256 h11 (rkByte_lt hrk _ _ _),
    xor_lt_256 h12 (rkByte_lt hrk _ _ _), xor_lt_256 h13 (rkByte_lt hrk _ _ _),
    xor_lt_256 h20 (rkByte_lt hrk _ _ _), xor_lt_256 h21 (rkByte_lt hrk _ _ _),
    xor_lt_256 h22 (rkByte_lt hrk _ _ _), xor_lt_256 h23 (rkByte_lt hrk _ _ _),
    xor_lt_256 h30 (rkByte_lt hrk _ _ _), xor_lt_256 h31 (rkByte_lt hrk _ _ _),
    xor_lt_256 h32 (rkByte_lt hrk _ _ _), xor_lt_256 h33 (rkByte_lt hrk _ _ _)⟩

theorem StLt_sub (s : St) : StLt (subBytesSt s) :=
  ⟨getSBoxValue_lt _, getSBoxValue_lt _, getSBoxValue_lt _, getSBoxValue_lt _,
   getSBoxValue_lt _, getSBoxValue_lt _, getSBoxValue_lt _, getSBoxValue_lt _,
   getSBoxValue_lt _, getSBoxValue_lt _, getSBoxValue_lt _, getSBoxValue_lt _,
   getSBoxValue_lt _, getSBoxValue_lt _, getSBoxValue_lt _, getSBoxValue_lt _⟩

theorem StLt_shift {s : St} (hs : StLt s) : StLt (shiftRowsSt s) := by
  obtain ⟨h00, h01, h02, h03, h10, h11, h12, h13,
    h20, h21, h22, h23, h30, h31, h32, h33⟩ := hs
  exact ⟨h00, h11, h22, h33, h10, h21, h32, h03,
    h20, h31, h02, h13, h30, h01, h12, h23⟩

theorem mixCell_lt (x y : Nat) (tmp : Nat) (hx : x < 256) (htmp : tmp < 256) :
    x ^^^ (xtime y ^^^ tmp) < 256 :=
  xor_lt_256 hx (xor_lt_256 (xtime_lt y) htmp)

theorem StLt_mix {s : St} (hs : StLt s) : StLt (mixColumnsSt s) := by
  obtain ⟨h00, h01, h02, h03, h10, h11, h12, h13,
    h20, h21, h22, h23, h30, h31, h32, h33⟩ := hs
  refine ⟨?_, ?_, ?_, ?_, ?_, ?_, ?_, ?_, ?_, ?_, ?_, ?_, ?_, ?_, ?_, ?_⟩ <;>
    exact mixCell_lt _ _ _ (by assumption)
      (xor_lt_256 (xor_lt_256 (xor_lt_256 (by assumption) (by assumption))
        (by assumption)) (by assumption))

theorem keyExpandWord_lt {acc : List Nat} (h : bytesLt acc) :
    bytesLt (keyExpandWord acc) := by
  intro x hx
  unfold keyExpandWord at hx
  rw [List.mem_append] at hx
  rcases hx with hx | hx
  · exact h x hx
  · have hD : ∀ i : Nat, acc.getD i 0 < 256 := getD_lt_of h (by norm_num)
    have hR : ∀ i : Nat, Rcon.getD i 0 < 256 := getD_lt_of Rcon_lt (by norm_num)
    simp only [List.mem_cons, List.not_mem_nil, or_false] at hx
    have ha : ∀ b : Nat, (if (acc.length / 4) % 4 = 0 then
        (getSBoxValue (acc.getD ((acc.length / 4 - 1) * 4 + 1) 0) ^^^
            Rcon.getD (acc.length / 4 / 4) 0,
         getSBoxValue (acc.getD ((acc.length / 4 - 1) * 4 + 2) 0),
         getSBoxValue (acc.getD ((acc.length / 4 - 1) * 4 + 3) 0),
         getSBoxValue (acc.getD ((acc.length / 4 - 1) * 4) 0))
      else (acc.getD ((acc.length / 4 - 1) * 4) 0,
            acc.getD ((acc.length / 4 - 1) * 4 + 1) 0,
            acc.getD ((acc.length / 4 - 1) * 4 + 2) 0,
            acc.getD ((acc.length / 4 - 1) * 4 + 3) 0)).1 < 256 := by
      intro b
      split
      · exact xor_lt_256 (getSBoxValue_lt _) (hR _)
      · exact hD _
    rcases hx with rfl | rfl | rfl | rfl
    all_goals
      apply xor_lt_256 (hD _)
      split
      all_goals first
        | exact xor_lt_256 (getSBoxValue_lt _) (hR _)
        | exact getSBoxValue_lt _
        | exact hD _

theorem KeyExpansion_lt {key : List Nat} (h : bytesLt key) :
    bytesLt (KeyExpansion key) := by
  unfold KeyExpansion
  have htake : bytesLt (key.take 16) := fun x hx => h x (List.mem_of_mem_take hx)
  generalize key.take 16 = acc at htake ⊢
  induction (40 : Nat) generalizing acc with
  | zero => simpa using htake
  | succ n ih =>
    rw [List.range_succ, List.foldl_append]
    exact keyExpandWord_lt (ih _ htake)

theorem stateOfBytes_lt {b : List Nat} (hb : bytesLt b) :
    StLt (stateOfBytes b) := by
  have hD : ∀ i : Nat, b.getD i 0 < 256 := getD_lt_of hb (by norm_num)
  exact ⟨hD 0, hD 1, hD 2, hD 3, hD 4, hD 5, hD 6, hD 7,
    hD 8, hD 9, hD 10, hD 11, hD 12, hD 13, hD 14, hD 15⟩

theorem bytesOfState_lt {s : St} (hs : StLt s) : bytesLt (bytesOfState s) := by
  obtain ⟨h00, h01, h02, h03, h10, h11, h12, h13,
    h20, h21, h22, h23, h30, h31, h32, h33⟩ := hs
  intro x hx
  simp only [bytesOfState, List.mem_cons, List.not_mem_nil, or_false] at hx
  rcases hx with rfl | rfl | rfl | rfl | rfl | rfl | rfl | rfl | rfl | rfl
    | rfl | rfl | rfl | rfl | rfl | rfl <;> assumption

/-!
The fault-free cipher pipeline: with in-range state and round keys, the
overlay `Cipher` succeeds and computes exactly the textbook AES cipher,
every per-round comparison finding the predicted and re-encoded matrices
equal.
-/

theorem cipherLoopPlain_lt {rk : List Nat} (hrk : bytesLt rk) :
    ∀ (fuel round : Nat) {s : St}, StLt s →
      StLt (cipherLoopPlain rk round fuel s) := by
  intro fuel
  induction fuel with
  | zero =>
    intro round s hs
    rw [cipherLoopPlain]
    exact StLt_ark hrk _ (StLt_shift (StLt_sub s))
  | succ f ih =>
    intro round s hs
    rw [cipherLoopPlain]
    exact ih _ (StLt_ark hrk _ (StLt_mix (StLt_shift (StLt_sub s))))

theorem ok_bind {A B : Type} (x : A) (f : A → Except Nat B) :
    Bind.bind (Except.ok x) f = f x := rfl

theorem cipherLoop_ok {rk : List Nat} (hrk : bytesLt rk) :
    ∀ (fuel round : Nat) (s : St), StLt s →
      cipherLoop rk round fuel (s, encode_state s) =
        Except.ok (cipherLoopPlain rk round fuel s,
          encode_state (cipherLoopPlain rk round fuel s)) := by
  intro fuel
  induction fuel with
  | zero =>
    intro round s hs
    rw [cipherLoop, cipherLoopPlain]
    simp only [SubBytes_ok s hs, ok_bind, ShiftRows_ok, AddRoundKey_ok]
  | succ f ih =>
    intro round s hs
    rw [cipherLoop, cipherLoopPlain]
    simp only [SubBytes_ok s hs, ok_bind, ShiftRows_ok, MixColumns_ok,
      AddRoundKey_ok]
    exact ih (round + 1)
      (addRoundKeySt round rk (mixColumnsSt (shiftRowsSt (subBytesSt s))))
      (StLt_ark hrk _ (StLt_mix (StLt_shift (StLt_sub _))))

theorem Cipher_ok {rk : List Nat} (hrk : bytesLt rk) (s : St) (hs : StLt s) :
    Cipher rk s = Except.ok (CipherPlain rk s) := by
  unfold Cipher CipherPlain
  simp only [AddRoundKey_ok, ok_bind]
  rw [cipherLoop_ok hrk (Nr - 1) 1 (addRoundKeySt 0 rk s) (StLt_ark hrk 0 hs)]
  rfl

theorem CipherPlain_lt {rk : List Nat} (hrk : bytesLt rk) {s : St}
    (hs : StLt s) : StLt (CipherPlain rk s) :=
  cipherLoopPlain_lt hrk _ _ (StLt_ark hrk 0 hs)

/-!
Helpers for reasoning about the failing decryption path.
-/

theorem err_bind {A B : Type} (e : Nat) (f : A → Except Nat B) :
    Bind.bind (Except.error e) f = Except.error e := rfl

theorem xor_cancel_right (a b : Nat) : (a ^^^ b) ^^^ b = a := by
  rw [Nat.xor_assoc, Nat.xor_self, Nat.xor_zero]

theorem AddRoundKey_eq (round : Nat) (rk : List Nat) (s p : St) :
    AddRoundKey round rk s p =
      if encode_state (addRoundKeySt round rk s) = predictAddKey round rk p
      then Except.ok (addRoundKeySt round rk s, predictAddKey round rk p)
      else Except.error 2 := by
  unfold AddRoundKey
  exact overlayStep_eq _ _

/-- Solving a cellwise-XOR matrix equation for the unknown matrix. -/
theorem zip_xor_solve (g K L : St)
    (h : L = zipSt (fun a b => a ^^^ b) g K) :
    g = zipSt (fun a b => a ^^^ b) L K := by
  cases g
  cases K
  cases L
  simp only [zipSt, St.mk.injEq] at h ⊢
  obtain ⟨e1, e2, e3, e4, e5, e6, e7, e8, e9, e10, e11, e12, e13, e14, e15, e16⟩ := h
  exact ⟨by rw [e1, xor_cancel_right], by rw [e2, xor_cancel_right],
    by rw [e3, xor_cancel_right], by rw [e4, xor_cancel_right],
    by rw [e5, xor_cancel_right], by rw [e6, xor_cancel_right],
    by rw [e7, xor_cancel_right], by rw [e8, xor_cancel_right],
    by rw [e9, xor_cancel_right], by rw [e10, xor_cancel_right],
    by rw [e11, xor_cancel_right], by rw [e12, xor_cancel_right],
    by rw [e13, xor_cancel_right], by rw [e14, xor_cancel_right],
    by rw [e15, xor_cancel_right], by rw [e16, xor_cancel_right]⟩

/-!
CTR-mode round-trip machinery.
-/

theorem map_ok {A B : Type} (f : A → B) (x : A) :
    Except.map f (Except.ok x : Except Nat A) = Except.ok (f x) := rfl

theorem bytesOfState_length (s : St) : (bytesOfState s).length = 16 := rfl

theorem incIvRev_lt {l : List Nat} (h : bytesLt l) : bytesLt (incIvRev l) := by
  induction l with
  | nil => intro x hx; simp [incIvRev] at hx
  | cons b t ih =>
    intro x hx
    unfold incIvRev at hx
    by_cases hb : b = 255
    · rw [if_pos hb] at hx
      rcases List.mem_cons.mp hx with rfl | hx
      · norm_num
      · exact ih (fun y hy => h y (List.mem_cons_of_mem b hy)) x hx
    · rw [if_neg hb] at hx
      rcases List.mem_cons.mp hx with rfl | hx
      · have := h b (List.mem_cons_self b t)
        omega
      · exact h x (List.mem_cons_of_mem b hx)

theorem incIv_lt {iv : List Nat} (h : bytesLt iv) : bytesLt (incIv iv) := by
  intro x hx
  unfold incIv at hx
  rw [List.mem_reverse] at hx
  exact incIvRev_lt (fun y hy => h y (List.mem_reverse.mp hy)) x hx

theorem zipWith_xor_xor :
    ∀ (l ks : List Nat), l.length ≤ ks.length →
      List.zipWith (fun a b => a ^^^ b)
        (List.zipWith (fun a b => a ^^^ b) l ks) ks = l := by
  intro l
  induction l with
  | nil => intro ks _; simp
  | cons a t ih =>
    intro ks hlen
    cases ks with
    | nil => simp at hlen
    | cons k kt =>
      simp only [List.zipWith, List.cons.injEq]
      exact ⟨xor_cancel_right a k, ih kt (by simpa using hlen)⟩

theorem ctrLoop_cons (rk : List Nat) (iv buf : List Nat) (hne : buf ≠ []) :
    ctrLoop rk iv buf = (do
      let ks ← (Cipher rk (stateOfBytes iv)).map bytesOfState
      let rest ← ctrLoop rk (incIv iv) (buf.drop 16)
      pure (List.zipWith (fun a b => a ^^^ b) (buf.take 16) ks ++ rest.1,
        rest.2)) := by
  cases buf with
  | nil => exact absurd rfl hne
  | cons b bt => rw [ctrLoop]

theorem ctrLoop_nil (rk iv : List Nat) :
    ctrLoop rk iv [] = Except.ok ([], iv) := by
  rw [ctrLoop]
  rfl

theorem ctrLoop_roundtrip {rk : List Nat} (hrk : bytesLt rk) :
    ∀ (n : Nat) (buf iv : List Nat), buf.length ≤ n → bytesLt iv →
      ∃ out ivF, ctrLoop rk iv buf = Except.ok (out, ivF) ∧
        out.length = buf.length ∧
        ctrLoop rk iv out = Except.ok (buf, ivF) := by
  intro n
  induction n with
  | zero =>
    intro buf iv hlen _
    have hb : buf = [] := List.eq_nil_of_length_eq_zero (Nat.le_zero.mp hlen)
    subst hb
    exact ⟨[], iv, ctrLoop_nil rk iv, rfl, ctrLoop_nil rk iv⟩
  | succ n ih =>
    intro buf iv hlen hiv
    cases hbuf : buf with
    | nil =>
      exact ⟨[], iv, ctrLoop_nil rk iv, rfl, ctrLoop_nil rk iv⟩
    | cons b bt =>
      subst hbuf
      have hciph := Cipher_ok hrk (stateOfBytes iv) (stateOfBytes_lt hiv)
      obtain ⟨out2, ivF, h1, hlen2, h2⟩ :=
        ih ((b :: bt).drop 16) (incIv iv)
          (by simp only [List.length_drop, List.length_cons] at hlen ⊢; omega)
          (incIv_lt hiv)
      set ks := bytesOfState (CipherPlain rk (stateOfBytes iv)) with hks
      have hkslen : ks.length = 16 := bytesOfState_length _
      set A := List.zipWith (fun a b => a ^^^ b) ((b :: bt).take 16) ks with hA
      have hAlen : A.length = min (b :: bt).length 16 := by
        rw [hA, List.length_zipWith, List.length_take, hkslen]
        omega
      have hfst : ctrLoop rk iv (b :: bt) = Except.ok (A ++ out2, ivF) := by
        rw [ctrLoop_cons rk iv (b :: bt) (by simp), hciph, map_ok, ok_bind, h1,
          ok_bind]
        rfl
      refine ⟨A ++ out2, ivF, hfst, ?_, ?_⟩
      · rw [List.length_append, hAlen, hlen2]
        simp only [List.length_drop, List.length_cons]
        omega
      · have hApos : 0 < A.length := by
          rw [hAlen]
          simp
        have hAne : A ++ out2 ≠ [] := by
          intro hcon
          rw [List.append_eq_nil] at hcon
          rw [hcon.1] at hApos
          simp at hApos
        rw [ctrLoop_cons rk iv (A ++ out2) hAne, hciph, map_ok, ok_bind]
        by_cases hlong : 16 ≤ (b :: bt).length
        · have hA16 : A.length = 16 := by omega
          have htake : (A ++ out2).take 16 = A := by
            rw [← hA16]
            exact List.take_left A out2
          have hdrop : (A ++ out2).drop 16 = out2 := by
            rw [← hA16]
            exact List.drop_left A out2
          rw [htake, hdrop, h2, ok_bind, hA,
            zipWith_xor_xor _ _ (by rw [hkslen, List.length_take]; omega),
            List.take_append_drop]
          rfl
        · have hshort : (b :: bt).drop 16 = [] := by
            rw [List.drop_eq_nil_iff]
            omega
          rw [hshort, ctrLoop_nil] at h1
          have hout2 : out2 = [] ∧ ivF = incIv iv := by
            simp only [Except.ok.injEq, Prod.mk.injEq] at h1
            exact ⟨h1.1.symm, h1.2.symm⟩
          obtain ⟨rfl, rfl⟩ := hout2
          have htake : (A ++ ([] : List Nat)).take 16 = A := by
            rw [List.append_nil]
            exact List.take_of_length_le (by omega)
          have hdrop : (A ++ ([] : List Nat)).drop 16 = [] := by
            rw [List.append_nil, List.drop_eq_nil_iff]
            omega
          rw [htake, hdrop, ctrLoop_nil, ok_bind, hA,
            zipWith_xor_xor _ _ (by rw [hkslen, List.length_take]; omega),
            List.take_of_length_le (by omega)]
          simp only [List.append_nil]
          rfl

/-!
CBC drivers never validate the length: the loop runs `⌈length/16⌉`
iterations, exactly as many as for the length rounded up to the next
multiple of 16.
-/

theorem cbcEncLoop_roundUp (rk : List Nat) (n : Nat) :
    ∀ (m i : Nat) (buf iv : List Nat), n ≤ i + m → 16 ∣ i →
      cbcEncLoop rk n i buf iv =
        cbcEncLoop rk (16 * ((n + 15) / 16)) i buf iv := by
  intro m
  induction m with
  | zero =>
    intro i buf iv hm hdvd
    obtain ⟨k, rfl⟩ := hdvd
    rw [cbcEncLoop, cbcEncLoop, dif_neg (by omega), dif_neg (by omega)]
  | succ m ih =>
    intro i buf iv hm hdvd
    by_cases h : i < n
    · have h' : i < 16 * ((n + 15) / 16) := by omega
      rw [cbcEncLoop, cbcEncLoop, dif_pos h, dif_pos h']
      cases hX : (Cipher rk (stateOfBytes (XorWithIv (slice16 buf i) iv))).map
          bytesOfState with
      | error e => simp only [hX, err_bind]
      | ok c =>
        simp only [hX, ok_bind]
        exact ih (i + 16) (writeSlice16 buf i c) c (by omega)
          (Nat.dvd_add hdvd (by norm_num))
    · obtain ⟨k, rfl⟩ := hdvd
      rw [cbcEncLoop, cbcEncLoop, dif_neg h, dif_neg (by omega)]

theorem cbcDecLoop_roundUp (p0 : St) (rk : List Nat) (n : Nat) :
    ∀ (m i : Nat) (buf iv : List Nat), n ≤ i + m → 16 ∣ i →
      cbcDecLoop p0 rk n i buf iv =
        cbcDecLoop p0 rk (16 * ((n + 15) / 16)) i buf iv := by
  intro m
  induction m with
  | zero =>
    intro i buf iv hm hdvd
    obtain ⟨k, rfl⟩ := hdvd
    rw [cbcDecLoop, cbcDecLoop, dif_neg (by omega), dif_neg (by omega)]
  | succ m ih =>
    intro i buf iv hm hdvd
    by_cases h : i < n
    · have h' : i < 16 * ((n + 15) / 16) := by omega
      rw [cbcDecLoop, cbcDecLoop, dif_pos h, dif_pos h']
      cases hX : (InvCipher p0 rk (stateOfBytes (slice16 buf i))).map
          bytesOfState with
      | error e => simp only [hX, err_bind]
      | ok d =>
        simp only [hX, ok_bind]
        exact ih (i + 16) (writeSlice16 buf i (XorWithIv d iv)) (slice16 buf i)
          (by omega) (Nat.dvd_add hdvd (by norm_num))
    · obtain ⟨k, rfl⟩ := hdvd
      rw [cbcDecLoop, cbcDecLoop, dif_neg h, dif_neg (by omega)]

/-!
Success of a compare-and-correct step forces the Hamming invariant.
-/

theorem overlay_ok_inv (s1 p1 s' p' : St)
    (h : (compareCodes s1 (encode_state s1) p1).map (fun s'' => (s'', p1)) =
      Except.ok (s', p')) :
    encode_state s' = p' := by
  rw [overlayStep_eq] at h
  by_cases hc : encode_state s1 = p1
  · rw [if_pos hc] at h
    simp only [Except.ok.injEq, Prod.mk.injEq] at h
    rw [← h.1, ← h.2]
    exact hc
  · rw [if_neg hc] at h
    simp at h

/-- The 4-bit packing equals its arithmetic reading `p0 + 2p1 + 4p2 + 8p3`. -/
theorem pack4_sum (z o t w : Nat) (hz : z < 2) (ho : o < 2) (ht : t < 2)
    (hw : w < 2) :
    z ||| (o <<< 1) ||| (t <<< 2) ||| (w <<< 3) = z + 2 * o + 4 * t + 8 * w := by
  interval_cases z <;> interval_cases o <;> interval_cases t <;>
    interval_cases w <;> rfl

/-!
Claim theorems.
-/

set_option maxRecDepth 4000000 in
/-- C1: for the AES-128 key `2b7e151628aed2a6abf7158809cf4f3c`, encrypting
each of the four NIST SP 800-38A plaintext blocks with `AES_ECB_encrypt`
after `AES_init_ctx` yields exactly the corresponding expected ciphertext
block. -/
theorem C1_nist_ecb_vectors :
    AES_ECB_encrypt (AES_init_ctx nistKey) nistPt1 = Except.ok nistCt1 ∧
    AES_ECB_encrypt (AES_init_ctx nistKey) nistPt2 = Except.ok nistCt2 ∧
    AES_ECB_encrypt (AES_init_ctx nistKey) nistPt3 = Except.ok nistCt3 ∧
    AES_ECB_encrypt (AES_init_ctx nistKey) nistPt4 = Except.ok nistCt4 := by
  refine ⟨?_, ?_, ?_, ?_⟩ <;> decide!

set_option maxRecDepth 4000000 in
/-- C2: the round-trip law `ECB_decrypt(K, ECB_encrypt(K, P)) = P` fails on
the code.  For the zero key and zero plaintext block, encryption produces
`zeroCt`, but `AES_ECB_decrypt` signals the uncorrectable fault `exit(2)`
for every possible content `g` of `InvCipher`'s uninitialised predicted-code
matrix: its overlay `AddRoundKey` compares the freshly encoded state
against predictions derived from the garbage `pcode` (first round) or from
a `pcode` that the inverse transforms never updated (later rounds), so the
original block is never returned. -/
theorem C2_decrypt_never_roundtrips :
    AES_ECB_encrypt (AES_init_ctx zeroBlock) zeroBlock = Except.ok zeroCt ∧
    ∀ g : St, AES_ECB_decrypt g (AES_init_ctx zeroBlock) zeroCt =
      Except.error 2 := by
  refine ⟨by decide!, ?_⟩
  intro g
  by_cases hg : g = zipSt (fun a b => a ^^^ b)
      (encode_state (addRoundKeySt Nr (AES_init_ctx zeroBlock)
        (stateOfBytes zeroCt)))
      (mapSt hamming_encode (rkSt (AES_init_ctx zeroBlock) Nr))
  · subst hg
    decide!
  · have hne : ¬(encode_state (addRoundKeySt Nr (AES_init_ctx zeroBlock)
        (stateOfBytes zeroCt)) =
          predictAddKey Nr (AES_init_ctx zeroBlock) g) :=
      fun heq => hg (zip_xor_solve _ _ _ heq)
    unfold AES_ECB_decrypt InvCipher
    rw [AddRoundKey_eq, if_neg hne]
    rfl

/-- C3: for every byte state S (and, for AddRoundKey, every round-key
buffer), the elementwise Hamming encoding of each forward round transform
of S equals the predicted-code matrix computed by the corresponding
predictor started from the elementwise Hamming encoding of S. -/
theorem C3_hamming_invariant (s : St) (rk : List Nat) (round : Nat)
    (hs : StLt s) :
    encode_state (addRoundKeySt round rk s) =
        predictAddKey round rk (encode_state s) ∧
    encode_state (subBytesSt s) = predictSub s (encode_state s) ∧
    encode_state (shiftRowsSt s) = predictShift (encode_state s) ∧
    encode_state (mixColumnsSt s) = predictMixCols s (encode_state s) :=
  ⟨pred_ark round rk s, pred_sub s hs _, pred_shift s, pred_mix s _⟩

/-- Witness for C3 at a concrete state and round-key buffer. -/
theorem C3_hamming_invariant_witness :
    encode_state (addRoundKeySt 0 (AES_init_ctx nistKey)
        (stateOfBytes nistPt1)) =
        predictAddKey 0 (AES_init_ctx nistKey)
          (encode_state (stateOfBytes nistPt1)) ∧
    encode_state (subBytesSt (stateOfBytes nistPt1)) =
        predictSub (stateOfBytes nistPt1)
          (encode_state (stateOfBytes nistPt1)) ∧
    encode_state (shiftRowsSt (stateOfBytes nistPt1)) =
        predictShift (encode_state (stateOfBytes nistPt1)) ∧
    encode_state (mixColumnsSt (stateOfBytes nistPt1)) =
        predictMixCols (stateOfBytes nistPt1)
          (encode_state (stateOfBytes nistPt1)) :=
  C3_hamming_invariant (stateOfBytes nistPt1) (AES_init_ctx nistKey) 0
    (by decide)

/-- C4: whenever the observed and predicted Hamming matrices disagree, the
disagreement necessarily persists after `correct_state` runs (the
corrector never writes the two code matrices, and the re-comparison reads
the same matrices), and `compareCodes` aborts the block with the distinct
uncorrectable-fault error `exit(2)` instead of returning the state. -/
theorem C4_uncorrectable_fault_aborts (s h p : St) (hne : h ≠ p) :
    compareCodes s h p = Except.error 2 := by
  unfold compareCodes
  rw [if_pos hne, if_pos hne]

/-- Witness for C4 at a concrete mismatching pair of code matrices. -/
theorem C4_uncorrectable_fault_aborts_witness :
    compareCodes (stateOfBytes zeroBlock) (encode_state (stateOfBytes zeroBlock))
      (encode_state (stateOfBytes nistPt1)) = Except.error 2 :=
  C4_uncorrectable_fault_aborts _ _ _ (by decide)

/-- C5: each overlay round transform that returns successfully establishes
the invariant that the elementwise Hamming encoding of the resulting state
equals the resulting predicted-code matrix. -/
theorem C5_success_hamming_invariant (round : Nat) (rk : List Nat)
    (s p s' p' : St) :
    (AddRoundKey round rk s p = Except.ok (s', p') → encode_state s' = p') ∧
    (SubBytes s p = Except.ok (s', p') → encode_state s' = p') ∧
    (ShiftRows s p = Except.ok (s', p') → encode_state s' = p') ∧
    (MixColumns s p = Except.ok (s', p') → encode_state s' = p') :=
  ⟨fun h => overlay_ok_inv _ _ _ _ h, fun h => overlay_ok_inv _ _ _ _ h,
   fun h => overlay_ok_inv _ _ _ _ h, fun h => overlay_ok_inv _ _ _ _ h⟩

set_option maxRecDepth 1000000 in
/-- Witness for C5: a concrete successful `AddRoundKey` call satisfying the
invariant. -/
theorem C5_success_hamming_invariant_witness :
    encode_state (stateOfBytes zeroBlock) =
      predictAddKey 0 (AES_init_ctx zeroBlock)
        (encode_state (stateOfBytes zeroBlock)) :=
  (C5_success_hamming_invariant 0 (AES_init_ctx zeroBlock)
      (stateOfBytes zeroBlock) (encode_state (stateOfBytes zeroBlock))
      (stateOfBytes zeroBlock)
      (predictAddKey 0 (AES_init_ctx zeroBlock)
        (encode_state (stateOfBytes zeroBlock)))).1 (by decide!)

/-- C6: the per-cell corrector computes `diff = observed XOR predicted`,
leaves the byte unchanged when `diff = 0`, and otherwise flips exactly the
data bit selected by the `(pone, ptwo)` table — where `(pone, ptwo)` are
the first two positions `x = 3, 2, 1, 0` at which bit `x` of `diff` is 0 —
and flips nothing for any combination outside the table. -/
theorem C6_corrector_table (s h p : Nat) (hh : h < 16) (hp : p < 16) :
    correct_cell s h p = specCorrectCell s h p := by
  have hd : h ^^^ p < 16 := by
    have := Nat.xor_lt_two_pow (n := 4) (by simpa using hh) (by simpa using hp)
    simpa using this
  unfold correct_cell specCorrectCell
  generalize hD : h ^^^ p = d at hd ⊢
  interval_cases d <;> rfl

/-- Witness for C6 at a concrete state byte and code pair. -/
theorem C6_corrector_table_witness :
    correct_cell 0xab 0x00 0x08 = specCorrectCell 0xab 0x00 0x08 :=
  C6_corrector_table 0xab 0x00 0x08 (by decide) (by decide)

/-- C7: `hamming_encode` computes the four parities `p0 = b3^b2^b1^b0`,
`p1 = b6^b5^b4^b0`, `p2 = b7^b5^b4^b2^b1`, `p3 = b7^b6^b4^b3^b1` and packs
them as `(p3 p2 p1 p0)` in the low nibble of the result. -/
theorem C7_hamming_formula (b : Nat) : hamming_encode b = hammingSpec b := by
  simp only [hamming_encode, hammingSpec]
  exact pack4_sum _ _ _ _
    (xor_lt_two (xor_lt_two (xor_lt_two (get_bit_lt b 3) (get_bit_lt b 2))
      (get_bit_lt b 1)) (get_bit_lt b 0))
    (xor_lt_two (xor_lt_two (xor_lt_two (get_bit_lt b 6) (get_bit_lt b 5))
      (get_bit_lt b 4)) (get_bit_lt b 0))
    (xor_lt_two (xor_lt_two (xor_lt_two (xor_lt_two (get_bit_lt b 7)
      (get_bit_lt b 5)) (get_bit_lt b 4)) (get_bit_lt b 2)) (get_bit_lt b 1))
    (xor_lt_two (xor_lt_two (xor_lt_two (xor_lt_two (get_bit_lt b 7)
      (get_bit_lt b 6)) (get_bit_lt b 4)) (get_bit_lt b 3)) (get_bit_lt b 1))

set_option maxRecDepth 1000000 in
/-- C8 counterexample: a CBC encrypt call with `length = 8` (not a multiple
of 16) is not rejected: it encrypts a full 16-byte block in place (the
buffer changes and the context IV is updated), refuting the claim that no
buffer, state or IV byte is touched. -/
theorem C8_counterexample :
    AES_CBC_encrypt_buffer (AES_init_ctx zeroBlock) zeroBlock zeroBlock 8 =
      Except.ok (zeroCt, zeroCt) ∧ zeroCt ≠ zeroBlock := by
  constructor
  · have hstep : (Cipher (AES_init_ctx zeroBlock)
        (stateOfBytes (XorWithIv (slice16 zeroBlock 0) zeroBlock))).map
          bytesOfState = Except.ok zeroCt := by decide!
    rw [AES_CBC_encrypt_buffer, cbcEncLoop, dif_pos (by norm_num)]
    simp only [hstep, ok_bind]
    rw [cbcEncLoop, dif_neg (by norm_num)]
    rfl
  · decide

/-- C8 amended: the CBC drivers perform no length validation at all; a call
whose length is not a multiple of 16 behaves exactly like a call with the
length rounded up to the next multiple of 16, processing `⌈len/16⌉` full
16-byte blocks. -/
theorem C8_cbc_rounds_length_up (p0 : St) (rk iv buf : List Nat) (len : Nat) :
    AES_CBC_encrypt_buffer rk iv buf len =
      AES_CBC_encrypt_buffer rk iv buf (16 * ((len + 15) / 16)) ∧
    AES_CBC_decrypt_buffer p0 rk iv buf len =
      AES_CBC_decrypt_buffer p0 rk iv buf (16 * ((len + 15) / 16)) :=
  ⟨cbcEncLoop_roundUp rk len len 0 buf iv (by omega) ⟨0, rfl⟩,
   cbcDecLoop_roundUp p0 rk len len 0 buf iv (by omega) ⟨0, rfl⟩⟩

/-- C9: CTR mode is an involution: applying `AES_CTR_xcrypt_buffer` twice
with the same key and the same starting IV restores the original buffer
(of any length), and both passes succeed. -/
theorem C9_ctr_roundtrip (key iv buf : List Nat) (hkey : bytesLt key)
    (hiv : bytesLt iv) :
    Except.map Prod.fst
      (Bind.bind (AES_CTR_xcrypt_buffer (AES_init_ctx key) iv buf)
        (fun r1 => AES_CTR_xcrypt_buffer (AES_init_ctx key) iv r1.1)) =
      Except.ok buf := by
  have hrk : bytesLt (AES_init_ctx key) := KeyExpansion_lt hkey
  obtain ⟨out, ivF, h1, _, h2⟩ :=
    ctrLoop_roundtrip hrk buf.length buf iv le_rfl hiv
  unfold AES_CTR_xcrypt_buffer
  rw [h1, ok_bind]
  simp only [h2]
  rfl

set_option maxRecDepth 1000000 in
/-- Witness for C9 at a concrete key, IV and (length-5) buffer. -/
theorem C9_ctr_roundtrip_witness :
    Except.map Prod.fst
      (Bind.bind (AES_CTR_xcrypt_buffer (AES_init_ctx zeroBlock) zeroBlock
          [1, 2, 3, 4, 5])
        (fun r1 => AES_CTR_xcrypt_buffer (AES_init_ctx zeroBlock) zeroBlock
          r1.1)) =
      Except.ok [1, 2, 3, 4, 5] :=
  C9_ctr_roundtrip zeroBlock zeroBlock [1, 2, 3, 4, 5] (by decide) (by decide)

/-- C10: on fault-free runs the overlay cipher refines textbook AES: for
every in-range round-key buffer and state, `Cipher` returns exactly the
textbook AES-128 ciphertext (`CipherPlain`), never reaching the corrector
or the abort path — every per-round comparison finds the predicted and
re-encoded Hamming matrices equal. -/
theorem C10_faultfree_refines_textbook_aes (rk : List Nat) (s : St)
    (hrk : bytesLt rk) (hs : StLt s) :
    Cipher rk s = Except.ok (CipherPlain rk s) :=
  Cipher_ok hrk s hs

set_option maxRecDepth 1000000 in
/-- Witness for C10 at a concrete expanded key and state. -/
theorem C10_faultfree_refines_textbook_aes_witness :
    Cipher (AES_init_ctx zeroBlock) (stateOfBytes zeroBlock) =
      Except.ok (CipherPlain (AES_init_ctx zeroBlock)
        (stateOfBytes zeroBlock)) :=
  C10_faultfree_refines_textbook_aes (AES_init_ctx zeroBlock)
    (stateOfBytes zeroBlock) (by decide!) (by decide)

end AESSEU

